import Mathlib

/-!
Verification development for the `amazon-go` library: a shallow embedding of
its cookie store (auth.go), HTML extraction engine (parser.go) and fetch
orchestrator (orders.go) in Lean 4, together with theorems settling the
frozen specification claims.

Modelling conventions:
* Go `float64` values (prices, quantities, amounts) are modelled as `ℚ`;
  every arithmetic operation the code performs on them is exact decimal
  parsing or a single multiplication, so `ℚ` is a faithful abstraction for
  the magnitudes involved.
* Go `time.Time` values are modelled by `GoTime` (year/month/day); the Go
  zero time is January 1 of year 1, and all dates the parser produces are
  midnight UTC, so lexicographic comparison models `Before`/`After`.
* HTML documents are abstracted to the exact pieces the goquery selectors
  extract (texts and attribute values, in document order); regular
  expressions from the source are implemented as explicit leftmost-match
  scanners over character lists.
* The network is abstracted to oracles: a page oracle per year/offset and a
  detail oracle per order id.  Cooperative cancellation (`ctx.Done()`) is a
  cut-off index over the sequence of checkpoint checks the orchestrator
  performs.
-/

/-! ## Character and string utilities (Go strings / regexp primitives) -/

/-- ASCII whitespace recognised by Go `unicode.IsSpace` (ASCII range). -/
def goSpace (c : Char) : Bool :=
  c = ' ' || c = '\t' || c = '\n' || c = '\x0b' || c = '\x0c' || c = '\r'

/-- Characters matched by the RE2 class `\s` (`[\t\n\f\r ]`). -/
def reSpace (c : Char) : Bool :=
  c = '\t' || c = '\n' || c = '\x0c' || c = '\r' || c = ' '

/-- `strings.TrimSpace` (left side) on a character list. -/
def trimLeftL (l : List Char) : List Char := l.dropWhile goSpace

/-- `strings.TrimSpace` on a character list. -/
def trimL (l : List Char) : List Char :=
  ((trimLeftL l).reverse.dropWhile goSpace).reverse

/-- `strings.TrimSpace` on a string. -/
def trimStr (s : String) : String := String.mk (trimL s.toList)

/-- ASCII lower-casing of one character (Go `strings.ToLower`, ASCII range). -/
def lowerChar (c : Char) : Char :=
  if 'A' ≤ c ∧ c ≤ 'Z' then Char.ofNat (c.toNat + 32) else c

/-- ASCII lower-casing of a character list. -/
def lowerL (l : List Char) : List Char := l.map lowerChar

/-- ASCII lower-casing of a string. -/
def lowerStr (s : String) : String := String.mk (lowerL s.toList)

/-- Does the list start with the given pattern? -/
def startsWithL : List Char → List Char → Bool
  | _, [] => true
  | [], _ :: _ => false
  | c :: cs, p :: ps => c == p && startsWithL cs ps

/-- `strings.Contains` on character lists. -/
def containsL : List Char → List Char → Bool
  | [], pat => pat.isEmpty
  | c :: rest, pat => startsWithL (c :: rest) pat || containsL rest pat

/-- `strings.Contains s pat`. -/
def containsStr (s pat : String) : Bool := containsL s.toList pat.toList

/-- `strings.HasPrefix s pat` (written with the leading-piece test). -/
def hasPre (s pat : String) : Bool := startsWithL s.toList pat.toList

/-- `strings.TrimPrefix` on character lists: drop the leading piece when present. -/
def trimPreL (l pat : List Char) : List Char :=
  if startsWithL l pat then l.drop pat.length else l

/-- `strings.TrimPrefix` on strings. -/
def trimPreStr (s pat : String) : String := String.mk (trimPreL s.toList pat.toList)

/-- `strings.ReplaceAll` on character lists (non-overlapping, left to right).
The parser only calls it with non-empty patterns. -/
def replaceL (pat rep : List Char) : List Char → List Char
  | [] => []
  | c :: rest =>
    if pat ≠ [] && startsWithL (c :: rest) pat then
      rep ++ replaceL pat rep (rest.drop (pat.length - 1))
    else
      c :: replaceL pat rep rest
  termination_by l => l.length
  decreasing_by
    · simp only [List.length_cons]
      have := List.length_drop (pat.length - 1) rest
      omega
    · simp [List.length_cons]

/-- Numeric value of a digit list (`strconv` semantics for `\d+` captures). -/
def digitsVal (l : List Char) : Nat :=
  l.foldl (fun n c => 10 * n + (c.toNat - '0'.toNat)) 0

/-- Decimal value `D1.D2` as an exact rational (model of `strconv.ParseFloat`). -/
def decimalVal (intPart fracPart : List Char) : ℚ :=
  (digitsVal intPart : ℚ) + (digitsVal fracPart : ℚ) / ((10 : ℚ) ^ fracPart.length)

/-! ## Dates: model of `time.Time` restricted to what the parser produces -/

/-- A Go `time.Time` as produced by `time.Parse` on the date-only layouts the
parser uses: a year/month/day triple at midnight UTC. -/
structure GoTime where
  year : Int
  month : Nat
  day : Nat
deriving DecidableEq, Repr

/-- The Go zero time (January 1, year 1). -/
def GoTime.zero : GoTime := ⟨1, 1, 1⟩

/-- `time.Time.IsZero`. -/
def GoTime.isZero (t : GoTime) : Bool := t = GoTime.zero

/-- `time.Time.Before` (all modelled times are midnight UTC, so the instant
order is the lexicographic order on year/month/day). -/
def GoTime.before (a b : GoTime) : Bool :=
  a.year < b.year ||
    (a.year = b.year && (a.month < b.month || (a.month = b.month && a.day < b.day)))

/-- `time.Time.After`. -/
def GoTime.after (a b : GoTime) : Bool := GoTime.before b a

/-! ## `parseAmazonDate` and `containsMonth` (parser.go helpers) -/

/-- Month names (lowercased) with their numbers, as in Go's `longMonthNames`. -/
def longMonths : List (List Char × Nat) :=
  [("january".toList, 1), ("february".toList, 2), ("march".toList, 3),
   ("april".toList, 4), ("may".toList, 5), ("june".toList, 6),
   ("july".toList, 7), ("august".toList, 8), ("september".toList, 9),
   ("october".toList, 10), ("november".toList, 11), ("december".toList, 12)]

/-- Three-letter month abbreviations (lowercased) with their numbers. -/
def shortMonths : List (List Char × Nat) :=
  [("jan".toList, 1), ("feb".toList, 2), ("mar".toList, 3), ("apr".toList, 4),
   ("may".toList, 5), ("jun".toList, 6), ("jul".toList, 7), ("aug".toList, 8),
   ("sep".toList, 9), ("oct".toList, 10), ("nov".toList, 11), ("dec".toList, 12)]

/-- `containsMonth` from parser.go: the lowercased text contains some month
name or abbreviation as a substring. -/
def containsMonth (text : String) : Bool :=
  let lower := lowerL text.toList
  (longMonths.any fun m => containsL lower m.1) ||
    (shortMonths.any fun m => containsL lower m.1)

/-- Case-insensitive match of one month name from a table against the head of
the input (Go's `lookup` in the time package is case-insensitive). -/
def matchMonth (table : List (List Char × Nat)) (l : List Char) :
    Option (Nat × List Char) :=
  table.findSome? fun m =>
    if startsWithL (lowerL l) m.1 then some (m.2, l.drop m.1.length) else none

/-- Go `getnum` with `fixed=false` on layout `"2"`: one digit, or exactly two
when the second character is also a digit. -/
def num1or2 : List Char → Option (Nat × List Char)
  | c₁ :: c₂ :: rest =>
    if c₁.isDigit then
      if c₂.isDigit then some (digitsVal [c₁, c₂], rest)
      else some (digitsVal [c₁], c₂ :: rest)
    else none
  | [c₁] => if c₁.isDigit then some (digitsVal [c₁], []) else none
  | [] => none

/-- Go `getnum` with `fixed=true` on layout `"02"`: exactly two digits. -/
def num2 : List Char → Option (Nat × List Char)
  | c₁ :: c₂ :: rest =>
    if c₁.isDigit && c₂.isDigit then some (digitsVal [c₁, c₂], rest) else none
  | _ => none

/-- Four-digit year (layout `"2006"`). -/
def num4 : List Char → Option (Nat × List Char)
  | c₁ :: c₂ :: c₃ :: c₄ :: rest =>
    if c₁.isDigit && c₂.isDigit && c₃.isDigit && c₄.isDigit then
      some (digitsVal [c₁, c₂, c₃, c₄], rest)
    else none
  | _ => none

/-- Expect one literal character of the layout. -/
def lit (c : Char) : List Char → Option (List Char)
  | x :: rest => if x == c then some rest else none
  | [] => none

/-- Number of days in a month, with Gregorian leap years (as validated by Go
`time.Parse`). -/
def daysIn (year : Int) (month : Nat) : Nat :=
  if month = 2 then
    if year % 4 = 0 ∧ (year % 100 ≠ 0 ∨ year % 400 = 0) then 29 else 28
  else if month = 4 ∨ month = 6 ∨ month = 9 ∨ month = 11 then 30
  else 31

/-- Range validation performed by Go `time.Parse` before returning a time. -/
def validDate (year : Int) (month day : Nat) : Bool :=
  1 ≤ month && month ≤ 12 && 1 ≤ day && day ≤ daysIn year month

/-- Build the parsed time if the components are in range. -/
def mkDate (year : Int) (month day : Nat) : Option GoTime :=
  if validDate year month day then some ⟨year, month, day⟩ else none

/-- Layouts `"January 2, 2006"` / `"Jan 2, 2006"` (month table selects long
or short names), and the `"January 02, 2006"` variants with a fixed-width
day. -/
def fmtMonthDayYear (table : List (List Char × Nat)) (fixedDay : Bool)
    (l : List Char) : Option GoTime := do
  let (m, r₁) ← matchMonth table l
  let r₂ ← lit ' ' r₁
  let (d, r₃) ← (if fixedDay then num2 else num1or2) r₂
  let r₄ ← lit ',' r₃
  let r₅ ← lit ' ' r₄
  let (y, r₆) ← num4 r₅
  if r₆.isEmpty then mkDate y m d else none

/-- Layouts `"2 January 2006"` / `"02 January 2006"`. -/
def fmtDayMonthYear (fixedDay : Bool) (l : List Char) : Option GoTime := do
  let (d, r₁) ← (if fixedDay then num2 else num1or2) l
  let r₂ ← lit ' ' r₁
  let (m, r₃) ← matchMonth longMonths r₂
  let r₄ ← lit ' ' r₃
  let (y, r₅) ← num4 r₄
  if r₅.isEmpty then mkDate y m d else none

/-- Layout `"2006-01-02"`. -/
def fmtISO (l : List Char) : Option GoTime := do
  let (y, r₁) ← num4 l
  let r₂ ← lit '-' r₁
  let (m, r₃) ← num2 r₂
  let r₄ ← lit '-' r₃
  let (d, r₅) ← num2 r₄
  if r₅.isEmpty then mkDate y m d else none

/-- Layouts `"01/02/2006"` and `"1/2/2006"`. -/
def fmtSlash (fixed : Bool) (l : List Char) : Option GoTime := do
  let (m, r₁) ← (if fixed then num2 else num1or2) l
  let r₂ ← lit '/' r₁
  let (d, r₃) ← (if fixed then num2 else num1or2) r₂
  let r₄ ← lit '/' r₃
  let (y, r₅) ← num4 r₄
  if r₅.isEmpty then mkDate y m d else none

/-- `parseAmazonDate` from parser.go: strip known order-date text before the
date, then try the known layouts in order; `none` models the error return. -/
def parseAmazonDate (text : String) : Option GoTime :=
  let t₀ := trimL text.toList
  let t₁ := trimL (trimPreL t₀ "Ordered".toList)
  let t₂ := trimL (trimPreL t₁ "Order placed".toList)
  let t₃ := trimL (trimPreL t₂ "Placed on".toList)
  let tries : List (List Char → Option GoTime) :=
    [fmtMonthDayYear longMonths false, fmtMonthDayYear shortMonths false,
     fmtMonthDayYear longMonths true, fmtMonthDayYear shortMonths true,
     fmtDayMonthYear false, fmtDayMonthYear true,
     fmtISO, fmtSlash true, fmtSlash false]
  tries.findSome? fun f => f t₃

/-! ## Regex-based extractors (parser.go helpers) -/

/-- Exactly `n` digits at the head of the list, returning them and the rest. -/
def takeDigits : Nat → List Char → Option (List Char × List Char)
  | 0, l => some ([], l)
  | n + 1, c :: rest =>
    if c.isDigit then
      match takeDigits n rest with
      | some (ds, r) => some (c :: ds, r)
      | none => none
    else none
  | _ + 1, [] => none

/-- Match the order-id shape `\d{3}-\d{7}-\d{7}` at the head of the list,
returning the 19 matched characters. -/
def orderIdAt (l : List Char) : Option (List Char) := do
  let (d₁, r₁) ← takeDigits 3 l
  let r₂ ← lit '-' r₁
  let (d₂, r₃) ← takeDigits 7 r₂
  let r₄ ← lit '-' r₃
  let (d₃, _) ← takeDigits 7 r₄
  pure (d₁ ++ '-' :: d₂ ++ '-' :: d₃)

/-- Leftmost-match scan: try a head matcher at every suffix, left to right
(RE2 semantics for an unanchored pattern). -/
def scanFirst (f : List Char → Option α) : List Char → Option α
  | [] => f []
  | c :: rest =>
    match f (c :: rest) with
    | some v => some v
    | none => scanFirst f rest

/-- `extractOrderIDFromURL`: leftmost match of `orderID=(\d{3}-\d{7}-\d{7})`,
empty string when the pattern is absent. -/
def extractOrderIDFromURL (url : String) : String :=
  match scanFirst
      (fun l =>
        if startsWithL l "orderID=".toList then orderIdAt (l.drop 8) else none)
      url.toList with
  | some id => String.mk id
  | none => ""

/-- `extractOrderIDFromText`: leftmost match of `(\d{3}-\d{7}-\d{7})`. -/
def extractOrderIDFromText (text : String) : String :=
  match scanFirst orderIdAt text.toList with
  | some id => String.mk id
  | none => ""

/-- One character of the RE2 class `[A-Z0-9]`. -/
def asinChar (c : Char) : Bool := ('A' ≤ c && c ≤ 'Z') || c.isDigit

/-- Exactly ten `[A-Z0-9]` characters at the head of the list. -/
def takeAsin : Nat → List Char → Option (List Char)
  | 0, _ => some []
  | n + 1, c :: rest =>
    if asinChar c then
      match takeAsin n rest with
      | some ds => some (c :: ds)
      | none => none
    else none
  | _ + 1, [] => none

/-- `extractASINFromURL`: leftmost match of `(?:/dp/|asin=)([A-Z0-9]{10})`. -/
def extractASINFromURL (url : String) : String :=
  match scanFirst
      (fun l =>
        if startsWithL l "/dp/".toList then takeAsin 10 (l.drop 4)
        else if startsWithL l "asin=".toList then takeAsin 10 (l.drop 5)
        else none)
      url.toList with
  | some a => String.mk a
  | none => ""

/-- Leftmost match of the number shape `(\d+\.?\d*)`: first digit run, then
optionally a dot and a further digit run. -/
def findNum : List Char → Option (List Char × List Char)
  | [] => none
  | c :: rest =>
    if c.isDigit then
      let intPart := c :: rest.takeWhile Char.isDigit
      match rest.dropWhile Char.isDigit with
      | '.' :: r₂ => some (intPart, r₂.takeWhile Char.isDigit)
      | _ => some (intPart, [])
    else findNum rest

/-- `parsePrice` from parser.go: strip currency markers, then take the first
number shape `(\d+\.?\d*)` as an exact decimal; `0` when no number occurs. -/
def parsePrice (text : String) : ℚ :=
  let t₀ := trimL text.toList
  let t₁ := replaceL "$".toList [] t₀
  let t₂ := replaceL "USD".toList [] t₁
  let t₃ := replaceL ",".toList [] t₂
  let t₄ := trimL t₃
  match findNum t₄ with
  | some (intPart, fracPart) => decimalVal intPart fracPart
  | none => 0

/-! ## `parseQuantity` (parser.go) -/

/-- Head match for `qty[:\s]*(\d+)`: the literal `qty`, a run of colons and
spaces, then a digit run (the capture). -/
def qtyPatAt (l : List Char) : Option Nat :=
  if startsWithL l "qty".toList then
    let r := (l.drop 3).dropWhile fun c => c == ':' || reSpace c
    let ds := r.takeWhile Char.isDigit
    if ds.isEmpty then none else some (digitsVal ds)
  else none

/-- Head match for `x(\d+)`. -/
def xNumPatAt : List Char → Option Nat
  | [] => none
  | c :: rest =>
    if c == 'x' then
      let ds := rest.takeWhile Char.isDigit
      if ds.isEmpty then none else some (digitsVal ds)
    else none

/-- Head match for `(\d+)x`: a maximal digit run immediately followed by `x`
(RE2 backtracking cannot shorten the run, since the character after a shorter
run is again a digit). -/
def numXPatAt (l : List Char) : Option Nat :=
  let ds := l.takeWhile Char.isDigit
  if ds.isEmpty then none
  else
    match l.dropWhile Char.isDigit with
    | 'x' :: _ => some (digitsVal ds)
    | _ => none

/-- Anchored match for `^(\d+)$`: the whole input is a non-empty digit run. -/
def bareNumPat (l : List Char) : Option Nat :=
  if l.isEmpty then none
  else if l.all Char.isDigit then some (digitsVal l) else none

/-- `parseQuantity` from parser.go: lower-case and trim, then try the four
patterns in order; a capture is accepted only when its value is positive, and
`1` is the fallback. -/
def parseQuantity (text : String) : ℚ :=
  let t := lowerL (trimL text.toList)
  let tryPats : List (Option Nat) :=
    [scanFirst qtyPatAt t, scanFirst xNumPatAt t, scanFirst numXPatAt t,
     bareNumPat t]
  let found : Option Nat := tryPats.findSome? fun r =>
    match r with
    | some n => if 0 < n then some n else none
    | none => none
  match found with
  | some n => (n : ℚ)
  | none => 1

/-! ## `parsePaymentMethod` (parser.go) -/

/-- Head match for `\*{4}(\d{4})`: four asterisks then four digits. -/
def lastFourAt (l : List Char) : Option (List Char) :=
  if startsWithL l "****".toList then
    match takeDigits 4 (l.drop 4) with
    | some (ds, _) => some ds
    | none => none
  else none

/-- Go `strings.Split s "****"`: the piece before the first separator
occurrence (only `parts[0]` is used by the source). -/
def splitHead (sep : List Char) : List Char → List Char
  | [] => []
  | c :: rest =>
    if startsWithL (c :: rest) sep then []
    else c :: splitHead sep rest

/-- `parsePaymentMethod` from parser.go: card brand by keyword, last four
digits by the `****NNNN` shape; returns `(cardType, lastFour)`. -/
def parsePaymentMethod (method : String) : String × String :=
  let lastFour :=
    match scanFirst lastFourAt method.toList with
    | some ds => String.mk ds
    | none => ""
  let ml := lowerStr method
  let cardType :=
    if containsStr ml "visa" then "Visa"
    else if containsStr ml "mastercard" || containsStr ml "master card" then "Mastercard"
    else if containsStr ml "amex" || containsStr ml "american express" then "Amex"
    else if containsStr ml "discover" then "Discover"
    else if containsStr ml "gift card" then "Gift Card"
    else if containsStr ml "debit" then "Debit"
    else String.mk (trimL (splitHead "****".toList method.toList))
  (cardType, lastFour)

/-! ## Domain model (types.go) -/

/-- `OrderSummary` from types.go. -/
structure OrderSummary where
  id : String
  date : GoTime
  total : ℚ
  itemCount : Int
  itemNames : List String
  detailURL : String
deriving DecidableEq, Repr

/-- `OrderItem` from types.go. -/
structure OrderItem where
  name : String
  price : ℚ
  quantity : ℚ
  unitPrice : ℚ
  asin : String
  description : String
  category : String
deriving DecidableEq, Repr

/-- `Order` from types.go. -/
structure Order where
  id : String
  date : GoTime
  total : ℚ
  subtotal : ℚ
  tax : ℚ
  shippingFees : ℚ
  items : List OrderItem
deriving DecidableEq, Repr

/-- `Transaction` from types.go. -/
structure Transaction where
  orderID : String
  date : GoTime
  amount : ℚ
  paymentMethod : String
  cardType : String
  lastFour : String
  merchant : String
  status : String
deriving DecidableEq, Repr

/-! ## Cookie store (auth.go) -/

/-- `Cookie` from auth.go (the persistence-only fields are carried along but
play no role in the claims). -/
structure Cookie where
  name : String
  value : String
  domain : String
  path : String
deriving DecidableEq, Repr

/-- The in-memory cookie map of a `CookieStore`.  The Go map holds one entry
per name; a list of entries with `getCookie` as the name lookup models it. -/
def CookieStoreState := List Cookie

/-- `CookieStore.Get`: the cookie stored under a name, if any. -/
def getCookie (s : CookieStoreState) (name : String) : Option Cookie :=
  s.find? fun c => c.name == name

/-- `EssentialCookies` from auth.go: the fixed 10-name essential set. -/
def EssentialCookies : List String :=
  ["session-id", "session-id-time", "session-token", "ubid-main", "at-main",
   "sess-at-main", "sst-main", "x-main", "lc-main", "i18n-prefs"]

/-- `CookieStore.HasEssentialCookies` from auth.go: count how many essential
names are present and compare with the minimum of 4. -/
def HasEssentialCookies (s : CookieStoreState) : Bool :=
  let minRequired := 4
  let count := EssentialCookies.countP fun name => (getCookie s name).isSome
  decide (minRequired ≤ count)

/-! ## Order-list parsing (parser.go: ParseOrderList / parseOrderCard) -/

/-- One `.item-box` block of an order card: the product-title text and the
text of its product link (the fallback name source). -/
structure ItemBox where
  productTitle : String
  dpLinkText : String
deriving DecidableEq, Repr

/-- One `.order-card` block, abstracted to what the selectors extract:
the first order-details link's `href` (when such a link exists), the text of
the first `.yohtmlc-order-id` region (empty when absent), the header list
item texts, the item boxes and the quantity-marker texts, all in document
order. -/
structure OrderCard where
  detailHref : Option String
  orderIdText : String
  headerItems : List String
  itemBoxes : List ItemBox
  qtyTexts : List String
deriving DecidableEq, Repr

/-- Go `int(q)` on a parsed quantity: truncation toward zero; the quantities
reaching this point are positive, so it is the floor. -/
def goIntOfRat (q : ℚ) : Int := ⌊q⌋

/-- `parseOrderCard` from parser.go.  The Go function's error result is
always `nil` (its only return is `return order, nil`), so it is modelled as
total. -/
def parseOrderCard (c : OrderCard) : OrderSummary :=
  let (detailURL, idFromURL) :=
    match c.detailHref with
    | some href => ("https://www.amazon.com" ++ href, extractOrderIDFromURL href)
    | none => ("", "")
  let id :=
    if idFromURL = "" then extractOrderIDFromText (trimStr c.orderIdText)
    else idFromURL
  let date := c.headerItems.foldl
    (fun d text =>
      let t := trimStr text
      if containsMonth t then
        match parseAmazonDate t with
        | some dt => dt
        | none => d
      else d)
    GoTime.zero
  let total := c.headerItems.foldl
    (fun tot text =>
      let t := trimStr text
      if containsStr (lowerStr t) "total" || hasPre t "$" then
        let p := parsePrice t
        if 0 < p then p else tot
      else tot)
    0
  let itemNames := c.itemBoxes.filterMap fun b =>
    let t := trimStr b.productTitle
    let t := if t = "" then trimStr b.dpLinkText else t
    if t ≠ "" then some t else none
  let extra : Int := c.qtyTexts.foldl
    (fun e t =>
      let q := parseQuantity (trimStr t)
      if 1 < q then e + goIntOfRat q - 1 else e)
    0
  { id := id
    date := date
    total := total
    itemCount := (c.itemBoxes.length : Int) + extra
    itemNames := itemNames
    detailURL := detailURL }

/-- `ParseOrderList` from parser.go: parse every `.order-card` block.  The
per-card error branch that would skip a card is dead code, because
`parseOrderCard` never returns an error, so every card contributes one
summary. -/
def ParseOrderList (cards : List OrderCard) : List OrderSummary :=
  cards.map parseOrderCard

/-! ## Order-detail item parsing (parser.go: parseShipmentItems) -/

/-- One `[data-component='unitPrice']` block: the `.a-offscreen` text and the
`.a-price` fallback text. -/
structure PriceDiv where
  offscreenText : String
  aPriceText : String
deriving DecidableEq, Repr

/-- The text the source reads from a price block. -/
def PriceDiv.text (p : PriceDiv) : String :=
  if p.offscreenText = "" then p.aPriceText else p.offscreenText

/-- An order-detail document, abstracted to the pieces `parseShipmentItems`
reads: all product links on the page (href and visible text), the product
links inside shipment sections (hrefs in document order), the unit-price
blocks and the quantity block texts. -/
structure DetailDoc where
  dpLinks : List (String × String)
  shipmentDpLinks : List String
  priceDivs : List PriceDiv
  quantityDivs : List String
deriving DecidableEq, Repr

/-- First pass of `parseShipmentItems`: the ASIN-to-name entries, in document
order, from links with a non-trivial visible text. -/
def asinNameEntries (links : List (String × String)) : List (String × String) :=
  links.filterMap fun link =>
    let asin := extractASINFromURL link.1
    if asin = "" then none
    else
      let text := trimStr link.2
      if text ≠ "" ∧ 5 < text.length then some (asin, text) else none

/-- Go map read `asinToName[asin]`: the last insertion wins, a missing key
yields the empty string. -/
def asinNameGet (entries : List (String × String)) (asin : String) : String :=
  match entries.reverse.find? (fun e => e.1 == asin) with
  | some e => e.2
  | none => ""

/-- Second pass: walk shipment-section product links in order, deduplicating
by ASIN, creating one item per unique ASIN with the looked-up name. -/
def buildItems (entries : List (String × String)) :
    List String → List String → List OrderItem
  | [], _ => []
  | href :: rest, seen =>
    let asin := extractASINFromURL href
    if asin = "" ∨ asin ∈ seen then buildItems entries rest seen
    else
      { name := asinNameGet entries asin, price := 0, quantity := 0,
        unitPrice := 0, asin := asin, description := "", category := "" } ::
        buildItems entries rest (asin :: seen)

/-- Positional application of a per-index value list: the i-th value updates
the i-th item, extra values are ignored, items beyond the values are kept
(model of the indexed `Each` loops of the source). -/
def zipApply (f : OrderItem → ℚ → OrderItem) :
    List OrderItem → List ℚ → List OrderItem
  | [], _ => []
  | items, [] => items
  | item :: rest, v :: vs => f item v :: zipApply f rest vs

/-- Third pass, prices: the i-th price block sets the i-th item's unit price
and line price and defaults its quantity to 1. -/
def applyUnitPrices (prices : List ℚ) (items : List OrderItem) : List OrderItem :=
  zipApply
    (fun item p =>
      { item with unitPrice := p, price := p,
                  quantity := if item.quantity = 0 then 1 else item.quantity })
    items prices

/-- Fourth pass, quantities: the i-th quantity block (when its parsed value is
positive, which `parseQuantity` guarantees) sets the i-th item's quantity and
recomputes the line price from the unit price. -/
def applyQuantities (qtys : List ℚ) (items : List OrderItem) : List OrderItem :=
  zipApply
    (fun item q =>
      if 0 < q then { item with quantity := q, price := item.unitPrice * q }
      else item)
    items qtys

/-- Final pass: items never touched by a price or quantity block get quantity
1 and line price equal to the unit price. -/
def applyDefaults (items : List OrderItem) : List OrderItem :=
  items.map fun item =>
    if item.quantity = 0 then { item with quantity := 1, price := item.unitPrice }
    else item

/-- `parseShipmentItems` from parser.go, producing the `order.Items` list. -/
def parseShipmentItems (doc : DetailDoc) : List OrderItem :=
  let entries := asinNameEntries doc.dpLinks
  let items := buildItems entries doc.shipmentDpLinks []
  let prices := doc.priceDivs.map fun pd => parsePrice pd.text
  let qtys := doc.quantityDivs.map fun t => parseQuantity (trimStr t)
  applyDefaults (applyQuantities qtys (applyUnitPrices prices items))

/-! ## Transactions parsing (parser.go: ParseTransactions) -/

/-- One `[data-pmts-component-id]` row of a transaction line item: the bold
text of the wide column (payment method), the bold text of the narrow column
(amount), the order-id links (href and visible text) and the base-size text
of the full-width column (merchant). -/
structure TxRow where
  span9Bold : String
  span3Bold : String
  orderLinks : List (String × String)
  span12Base : String
deriving DecidableEq, Repr

/-- One `.apx-transactions-line-item-component-container` block: the
date-container siblings preceding it (span text and full text, in the order
`PrevAll` visits them) and its rows. -/
structure TxLineItem where
  prevDates : List (String × String)
  rows : List TxRow
deriving DecidableEq, Repr

/-- One `.a-text-bold` element of the fallback pass: its text and the amount
text found next to its parent. -/
structure AltBold where
  text : String
  parentAmount : String
deriving DecidableEq, Repr

/-- One fallback section headed by a `Transactions from Order` heading. -/
structure AltSection where
  h3Text : String
  boxTitleBolds : List String
  spans : List String
  bolds : List AltBold
deriving DecidableEq, Repr

/-- A transactions document, abstracted to what the two passes read. -/
structure TxDoc where
  sleeveBolds : List String
  dateContainers : List (String × String)
  lineItems : List TxLineItem
  altSections : List AltSection
deriving DecidableEq, Repr

/-- The date text of a date container: the span text, or the whole text when
the span text is blank. -/
def dateContainerText (sp full : String) : String :=
  let t := trimStr sp
  if t = "" then trimStr full else t

/-- Per-link update of a transaction's order id in the primary pass: the href
extraction overwrites unconditionally, the link-text extraction only fills a
still-empty id when the text mentions the order. -/
def txLinkStep (tx : Transaction) (link : String × String) : Transaction :=
  let tx := { tx with orderID := extractOrderIDFromURL link.1 }
  let linkText := trimStr link.2
  if tx.orderID = "" ∧ containsStr linkText "Order #" then
    { tx with orderID := extractOrderIDFromText linkText }
  else tx

/-- Payment-method part of a row update: a non-blank bold text in the wide
column sets the payment method and the derived card fields. -/
def txPmStep (tx : Transaction) (row : TxRow) : Transaction :=
  let pm := trimStr row.span9Bold
  if pm ≠ "" then
    { tx with paymentMethod := pm, cardType := (parsePaymentMethod pm).1,
              lastFour := (parsePaymentMethod pm).2 }
  else tx

/-- Amount part of a row update: a non-blank bold text in the narrow column
is parsed after stripping a leading negative sign. -/
def txAmountStep (tx : Transaction) (row : TxRow) : Transaction :=
  let amountText := trimStr row.span3Bold
  if amountText ≠ "" then
    { tx with amount := parsePrice (trimPreStr amountText "-") }
  else tx

/-- Merchant part of a row update: a non-blank base text that does not itself
mention the order sets the merchant. -/
def txMerchantStep (tx : Transaction) (row : TxRow) : Transaction :=
  let merchantText := trimStr row.span12Base
  if merchantText ≠ "" ∧ ¬ containsStr merchantText "Order #" then
    { tx with merchant := merchantText }
  else tx

/-- Per-row update of a transaction in the primary pass, in source order:
payment method, amount, order links, merchant. -/
def txRowStep (tx : Transaction) (row : TxRow) : Transaction :=
  txMerchantStep (row.orderLinks.foldl txLinkStep (txAmountStep (txPmStep tx row) row)) row

/-- Per-container date update while scanning the date siblings of a line
item. -/
def txDateStep (tx : Transaction) (pd : String × String) : Transaction :=
  match parseAmazonDate (dateContainerText pd.1 pd.2) with
  | some d => { tx with date := d }
  | none => tx

/-- Primary-pass processing of one line item, given the running status and
date computed by the header scans. -/
def txLineItemRun (status : String) (date : GoTime) (li : TxLineItem) :
    Transaction :=
  let tx : Transaction :=
    { orderID := "", date := date, amount := 0, paymentMethod := "",
      cardType := "", lastFour := "", merchant := "", status := status }
  let tx := li.prevDates.foldl txDateStep tx
  li.rows.foldl txRowStep tx

/-- Fallback-pass processing of one section; threads the running date and
status across sections as the source does. -/
def altSectionRun (st : List Transaction × GoTime × String) (sec : AltSection) :
    List Transaction × GoTime × String :=
  let orderID := extractOrderIDFromText sec.h3Text
  let status := sec.boxTitleBolds.foldl (fun _ t => trimStr t) st.2.2
  let date := sec.spans.foldl
    (fun d t =>
      let x := trimStr t
      if containsMonth x ∧ ¬ containsStr x "Order" then
        match parseAmazonDate x with
        | some g => g
        | none => d
      else d)
    st.2.1
  let txs := sec.bolds.filterMap fun b =>
    let text := trimStr b.text
    if containsStr text "****" then
      let amountText := trimStr b.parentAmount
      let amount :=
        if amountText ≠ "" then parsePrice (trimPreStr amountText "-") else 0
      if 0 < amount then
        some { orderID := orderID, date := date, amount := amount,
               paymentMethod := text,
               cardType := (parsePaymentMethod text).1,
               lastFour := (parsePaymentMethod text).2,
               merchant := "", status := status }
      else none
    else none
  (st.1 ++ txs, date, status)

/-- `parseTransactionsAlternative` from parser.go. -/
def parseTransactionsAlternative (doc : TxDoc) : List Transaction :=
  (doc.altSections.foldl altSectionRun ([], GoTime.zero, "")).1

/-- `ParseTransactions` from parser.go: scan status headers and date
containers (last value wins), process the transaction line items, keep the
ones with meaningful data, and fall back to the alternative pass when the
primary pass yields nothing. -/
def ParseTransactions (doc : TxDoc) : List Transaction :=
  let status := doc.sleeveBolds.foldl
    (fun st t =>
      let s := trimStr t
      if s ≠ "" then s else st)
    ""
  let date := doc.dateContainers.foldl
    (fun d pd =>
      match parseAmazonDate (dateContainerText pd.1 pd.2) with
      | some g => g
      | none => d)
    GoTime.zero
  let primary := doc.lineItems.filterMap fun li =>
    let tx := txLineItemRun status date li
    if 0 < tx.amount ∨ tx.paymentMethod ≠ "" then some tx else none
  if primary.length = 0 then parseTransactionsAlternative doc else primary

/-! ## Fetch orchestrator (orders.go) -/

/-- `FetchOptions` from orders.go; unset times are the Go zero time. -/
structure FetchOptions where
  startDate : GoTime
  endDate : GoTime
  year : Int
  maxOrders : Int
  includeDetails : Bool
deriving DecidableEq, Repr

/-- `Client.isWithinDateRange` from orders.go. -/
def isWithinDateRange (date : GoTime) (opts : FetchOptions) : Bool :=
  if date.isZero then true
  else if opts.startDate.isZero = false ∧ date.before opts.startDate then false
  else if opts.endDate.isZero = false ∧ date.after opts.endDate then false
  else true

/-- `Client.determineYears` from orders.go; `currentYear` stands for
`time.Now().Year()`. -/
def determineYears (currentYear : Int) (opts : FetchOptions) : List Int :=
  if 0 < opts.year then [opts.year]
  else if opts.startDate.isZero = false ∧ opts.endDate.isZero = false then
    let startYear := opts.startDate.year
    let endYear := opts.endDate.year
    (List.range (endYear - startYear + 1).toNat).map fun i => endYear - i
  else if opts.endDate.isZero = false then [opts.endDate.year]
  else [currentYear]

/-- The response to one list-page fetch: `none` models a transport or parse
failure, `some page` the summaries parsed from the page. -/
def PageResp := Option (List OrderSummary)

/-- Loop of `Client.fetchYearOrders`: fetch pages at offsets `idx, idx+10, …`
until an error, an empty page, the configured maximum, or a short page.
Fetching past the supplied responses yields a page with no order cards.
Returns the accumulated summaries, the offsets fetched, and the error flag. -/
def fetchYearOrdersAux (maxOrders : Int) :
    List PageResp → Nat → List OrderSummary →
    List OrderSummary × List Nat × Bool
  | [], idx, acc => (acc, [idx], false)
  | none :: _, idx, acc => (acc, [idx], true)
  | some page :: rest, idx, acc =>
    if page.length = 0 then (acc, [idx], false)
    else
      let acc := acc ++ page
      if 0 < maxOrders ∧ maxOrders ≤ (acc.length : Int) then (acc, [idx], false)
      else if page.length < 10 then (acc, [idx], false)
      else
        let r := fetchYearOrdersAux maxOrders rest (idx + 10) acc
        (r.1, idx :: r.2.1, r.2.2)

/-- `Client.fetchYearOrders` from orders.go (page size 10, offsets from 0). -/
def fetchYearOrders (pages : List PageResp) (maxOrders : Int) :
    List OrderSummary × List Nat × Bool :=
  fetchYearOrdersAux maxOrders pages 0 []

/-- The environment a fetch run sees: the list pages each year's pagination
would encounter, and the outcome of fetching one order's detail page
(`none` models a failed detail fetch or parse). -/
structure ClientEnv where
  pagesOf : Int → List PageResp
  detailOf : String → Option Order

/-- Has the caller's context been cancelled by the time of the n-th
checkpoint check?  `cancelFrom = some k` means the context is signalled from
check `k` on (cancellation is monotone). -/
def cancelledAt (cancelFrom : Option Nat) (n : Nat) : Bool :=
  match cancelFrom with
  | some k => k ≤ n
  | none => false

/-- Loop of `Client.fetchOrderSummaries`: one cancellation check per year,
then that year's pagination; a year that errors is skipped; after appending a
year's date-filtered summaries the accumulated list is truncated and the
loop left once the configured maximum is reached.  Returns the summaries,
the next checkpoint index, and the cancellation flag. -/
def fetchOrderSummariesAux (env : ClientEnv) (cancelFrom : Option Nat)
    (opts : FetchOptions) :
    List Int → Nat → List OrderSummary → List OrderSummary × Nat × Bool
  | [], n, acc => (acc, n, false)
  | year :: years, n, acc =>
    if cancelledAt cancelFrom n then (acc, n, true)
    else
      let r := fetchYearOrders (env.pagesOf year) opts.maxOrders
      if r.2.2 then fetchOrderSummariesAux env cancelFrom opts years (n + 1) acc
      else
        let acc := acc ++ r.1.filter fun s => isWithinDateRange s.date opts
        if 0 < opts.maxOrders ∧ opts.maxOrders ≤ (acc.length : Int) then
          (acc.take opts.maxOrders.toNat, n + 1, false)
        else fetchOrderSummariesAux env cancelFrom opts years (n + 1) acc

/-- `Client.fetchOrderSummaries` from orders.go. -/
def fetchOrderSummaries (env : ClientEnv) (cancelFrom : Option Nat)
    (opts : FetchOptions) (currentYear : Int) :
    List OrderSummary × Nat × Bool :=
  fetchOrderSummariesAux env cancelFrom opts (determineYears currentYear opts) 0 []

/-- Projection of a summary into a summary-only `Order` (used both when
details are not requested and as the fallback for a failed detail fetch). -/
def summaryOrder (s : OrderSummary) : Order :=
  { id := s.id, date := s.date, total := s.total, subtotal := 0, tax := 0,
    shippingFees := 0, items := [] }

/-- Detail-expansion loop of `Client.FetchOrders`: one cancellation check per
summary, detail fetch with summary fallback, order-id and date backfill. -/
def fetchDetailsLoop (env : ClientEnv) (cancelFrom : Option Nat) :
    List OrderSummary → Nat → List Order → List Order × Bool
  | [], _, orders => (orders, false)
  | s :: rest, n, orders =>
    if cancelledAt cancelFrom n then (orders, true)
    else
      match env.detailOf s.id with
      | none => fetchDetailsLoop env cancelFrom rest (n + 1) (orders ++ [summaryOrder s])
      | some order =>
        let order := if order.id = "" then { order with id := s.id } else order
        let order := if order.date.isZero then { order with date := s.date } else order
        fetchDetailsLoop env cancelFrom rest (n + 1) (orders ++ [order])

/-- `Client.FetchOrders` from orders.go: fetch summaries (returning `nil` on
an error from that phase), then either project them or expand details.  The
second component is true when the run ended with the cancellation error. -/
def FetchOrders (env : ClientEnv) (cancelFrom : Option Nat)
    (opts : FetchOptions) (currentYear : Int) : List Order × Bool :=
  let r := fetchOrderSummaries env cancelFrom opts currentYear
  if r.2.2 then ([], true)
  else if opts.includeDetails = false then (r.1.map summaryOrder, false)
  else fetchDetailsLoop env cancelFrom r.1 r.2.1 []

/-- `Client.FetchTransactions` from orders.go, after a successful fetch and
parse of the transactions page: every transaction with an unrecoverable
order linkage is backfilled with the caller-supplied identifier. -/
def FetchTransactions (orderID : String) (doc : TxDoc) : List Transaction :=
  (ParseTransactions doc).map fun tx =>
    if tx.orderID = "" then { tx with orderID := orderID } else tx

/-! ## Spec-side reference definition (for the credential-gate claim) -/

/-- The ten essential cookie names as the specification lists them (spec-side
copy, kept separate from the source-side `EssentialCookies`). -/
def specEssentialNames : List String :=
  ["session-id", "session-id-time", "session-token", "ubid-main", "at-main",
   "sess-at-main", "sst-main", "x-main", "lc-main", "i18n-prefs"]

/-! ## Concrete inputs for counterexamples and witnesses -/

/-- A zero-valued order item (Go zero value of `OrderItem`). -/
def emptyItem : OrderItem :=
  { name := "", price := 0, quantity := 0, unitPrice := 0, asin := "",
    description := "", category := "" }

/-- A blank order summary, used to populate synthetic list pages where only
the number of summaries per page matters. -/
def blankSummary : OrderSummary :=
  { id := "", date := GoTime.zero, total := 0, itemCount := 0, itemNames := [],
    detailURL := "" }

/-- A synthetic list page carrying `n` summaries. -/
def pageOf (n : Nat) : List OrderSummary := List.replicate n blankSummary

/-- Page sequence yielding 10, 10 and 4 summaries. -/
def pagesTenTenFour : List (List OrderSummary) := [pageOf 10, pageOf 10, pageOf 4]

/-- An order card whose order-details link resolves to an identifier. -/
def cardWithId1 : OrderCard :=
  { detailHref := some "/gp/css/order-details?orderID=111-1111111-1111111&ref=a",
    orderIdText := "", headerItems := [], itemBoxes := [], qtyTexts := [] }

/-- A second order card with a resolvable identifier. -/
def cardWithId2 : OrderCard :=
  { detailHref := some "/gp/css/order-details?orderID=222-2222222-2222222&ref=b",
    orderIdText := "", headerItems := [], itemBoxes := [], qtyTexts := [] }

/-- An order card from which no identifier can be resolved: no order-details
link and no identifier text region. -/
def cardNoId : OrderCard :=
  { detailHref := none, orderIdText := "", headerItems := [], itemBoxes := [],
    qtyTexts := [] }

/-- A cookie store holding four essential-set cookies, none of which is the
session id, the session token, or an account-binding identifier. -/
def storeFourOther : CookieStoreState :=
  [{ name := "session-id-time", value := "t", domain := ".amazon.com", path := "/" },
   { name := "sess-at-main", value := "a", domain := ".amazon.com", path := "/" },
   { name := "sst-main", value := "s", domain := ".amazon.com", path := "/" },
   { name := "x-main", value := "x", domain := ".amazon.com", path := "/" }]

/-- A summary dated June 1, 2025, inside the range of `optsTwoYears`. -/
def summaryJune : OrderSummary :=
  { id := "111-1111111-1111111", date := ⟨2025, 6, 1⟩, total := 0,
    itemCount := 0, itemNames := [], detailURL := "" }

/-- Fetch options spanning 2024–2025 (two year iterations), without details. -/
def optsTwoYears : FetchOptions :=
  { startDate := ⟨2024, 1, 1⟩, endDate := ⟨2025, 12, 31⟩, year := 0,
    maxOrders := 0, includeDetails := false }

/-- Environment for the cancellation run: the 2025 pagination yields one
summary on a single short page; detail fetches fail (unused). -/
def envTwoYears : ClientEnv :=
  { pagesOf := fun y => if y = 2025 then [some [summaryJune]] else [],
    detailOf := fun _ => none }

/-- A detail document with one shipment item, one price block, one quantity
block. -/
def detailDocOne : DetailDoc :=
  { dpLinks := [("/dp/B000000000", "Widget Deluxe")],
    shipmentDpLinks := ["/dp/B000000000"],
    priceDivs := [{ offscreenText := "$5.00", aPriceText := "" }],
    quantityDivs := ["Qty: 2"] }

/-- Environment whose single year yields two summaries on one short page. -/
def envTwoOrders : ClientEnv :=
  { pagesOf := fun _ => [some [summaryJune, blankSummary]],
    detailOf := fun _ => none }

/-- Fetch options asking for at most one order of 2025. -/
def optsMaxOne : FetchOptions :=
  { startDate := GoTime.zero, endDate := GoTime.zero, year := 2025,
    maxOrders := 1, includeDetails := false }

/-- A transactions document with one line item whose order linkage cannot be
recovered from the page. -/
def txDocNoLink : TxDoc :=
  { sleeveBolds := ["Completed"],
    dateContainers := [],
    lineItems :=
      [{ prevDates := [],
         rows := [{ span9Bold := "Prime Visa ****1211", span3Bold := "-$44.91",
                    orderLinks := [], span12Base := "AMZN Mktp US" }] }],
    altSections := [] }

/-- The number of summaries carried by the first `m` list pages (pages past
the end of the list carry none); the accumulated total of the pagination
loop after `m` fetches. -/
def accLen (pages : List (List OrderSummary)) (m : Nat) : Nat :=
  ((pages.take m).map List.length).sum

/-- The pagination stop condition at page index `k`: the page parses to zero
summaries, or the accumulated total after appending it reaches a positive
caller maximum, or the page is short of the page size 10. -/
def stopCond (pages : List (List OrderSummary)) (maxOrders : Int) (k : Nat) : Bool :=
  let page := pages.getD k []
  page.length == 0 ||
    (decide (0 < maxOrders) && decide (maxOrders ≤ (accLen pages (k + 1) : Int))) ||
    decide (page.length < 10)

/-- The decimal digit characters, indexed: `digitCharOf n` is the character
for the digit `n`. -/
def digitCharOf (n : Fin 10) : Char := Char.ofNat (48 + n.val)

/-! ## Basic lemmas about the numeric parsers -/

theorem decimalVal_nonneg (intPart fracPart : List Char) :
    0 ≤ decimalVal intPart fracPart := by
  unfold decimalVal
  positivity

theorem parsePrice_nonneg (text : String) : 0 ≤ parsePrice text := by
  simp only [parsePrice]
  split
  · apply decimalVal_nonneg
  · exact le_refl 0

theorem findSome?_posFilter_pos (l : List (Option Nat)) (n : Nat)
    (h : l.findSome? (fun r => match r with
      | some n => if 0 < n then some n else none
      | none => none) = some n) : 0 < n := by
  induction l with
  | nil => simp [List.findSome?] at h
  | cons a as ih =>
    rw [List.findSome?] at h
    match a with
    | none => exact ih h
    | some m =>
      by_cases hm : 0 < m
      · simp [hm] at h
        omega
      · simp [hm] at h
        exact ih h

theorem parseQuantity_ge_one (text : String) : 1 ≤ parseQuantity text := by
  simp only [parseQuantity]
  split
  · next n h =>
    have := findSome?_posFilter_pos _ _ h
    exact_mod_cast this
  · exact le_refl 1

/-! ## Claim C7: date-range filtering -/

/-- C7: an order summary with an unresolved (zero) date always passes the
date-range filter; a summary with a known date passes exactly when its date
is not before the start bound (when one is set) and not after the end bound
(when one is set). -/
theorem C7_dateRangeFilter (date : GoTime) (opts : FetchOptions) :
    isWithinDateRange date opts =
      (date.isZero ||
        ((opts.startDate.isZero || !date.before opts.startDate) &&
          (opts.endDate.isZero || !date.after opts.endDate))) := by
  simp only [isWithinDateRange]
  split_ifs with h₁ h₂ h₃
  · simp [h₁]
  · simp_all
  · simp_all
  · cases hs : opts.startDate.isZero <;> cases he : opts.endDate.isZero <;>
      simp_all

/-! ## Claim C2: the minimum-viable-credential gate -/

/-- C2 counterexample: a store holding four essential-set cookies none of
which is the session id, the session token, or an account-binding identifier
still satisfies `HasEssentialCookies`, so the claimed "including" condition
does not hold on the code. -/
theorem C2_counterexample :
    HasEssentialCookies storeFourOther = true ∧
      getCookie storeFourOther "session-id" = none ∧
      getCookie storeFourOther "session-token" = none ∧
      getCookie storeFourOther "ubid-main" = none ∧
      getCookie storeFourOther "at-main" = none := by
  refine ⟨by decide, by decide, by decide, by decide, by decide⟩

/-- C2 (amended): `HasEssentialCookies` is true exactly when at least 4 names
of the fixed 10-name essential set are present — with no requirement that
any specific name is among them. -/
theorem C2_amended_hasEssential (s : CookieStoreState) :
    HasEssentialCookies s = true ↔
      4 ≤ (specEssentialNames.filter fun n => (getCookie s n).isSome).length := by
  simp only [HasEssentialCookies, decide_eq_true_eq, List.countP_eq_length_filter]
  rfl

/-! ## Claim C10: order-id backfill in FetchTransactions -/

/-- C10: for a non-empty caller-supplied order id, every transaction returned
by `FetchTransactions` carries a non-empty order id — transactions whose
linkage could not be recovered from the page are backfilled with the
caller's id. -/
theorem C10_backfillOrderID (orderID : String) (doc : TxDoc)
    (h : orderID ≠ "") :
    ((FetchTransactions orderID doc).all fun tx => !(tx.orderID == "")) = true := by
  rw [List.all_eq_true]
  intro tx htx
  simp only [FetchTransactions, List.mem_map] at htx
  obtain ⟨tx₀, _, rfl⟩ := htx
  by_cases h₀ : tx₀.orderID = "" <;> simp [h₀, h]

/-- Witness for C10 at a concrete transactions page whose single line item
has no recoverable order linkage. -/
theorem C10_backfillOrderID_witness :
    "114-9733092-9360267" ≠ "" ∧
      ((FetchTransactions "114-9733092-9360267" txDocNoLink).all
        fun tx => !(tx.orderID == "")) = true :=
  ⟨by decide, C10_backfillOrderID "114-9733092-9360267" txDocNoLink (by decide)⟩

/-! ## Claim C6: transaction amounts are non-negative magnitudes -/

theorem txLinkStep_amount (tx : Transaction) (link : String × String) :
    (txLinkStep tx link).amount = tx.amount := by
  simp only [txLinkStep]
  split <;> rfl

theorem foldl_txLinkStep_amount (links : List (String × String))
    (tx : Transaction) : (links.foldl txLinkStep tx).amount = tx.amount := by
  induction links generalizing tx with
  | nil => rfl
  | cons a as ih => rw [List.foldl_cons, ih, txLinkStep_amount]

theorem txDateStep_amount (tx : Transaction) (pd : String × String) :
    (txDateStep tx pd).amount = tx.amount := by
  simp only [txDateStep]
  split <;> rfl

theorem foldl_txDateStep_amount (pds : List (String × String))
    (tx : Transaction) : (pds.foldl txDateStep tx).amount = tx.amount := by
  induction pds generalizing tx with
  | nil => rfl
  | cons a as ih => rw [List.foldl_cons, ih, txDateStep_amount]

theorem txPmStep_amount (tx : Transaction) (row : TxRow) :
    (txPmStep tx row).amount = tx.amount := by
  simp only [txPmStep]
  split <;> rfl

theorem txMerchantStep_amount (tx : Transaction) (row : TxRow) :
    (txMerchantStep tx row).amount = tx.amount := by
  simp only [txMerchantStep]
  split <;> rfl

theorem txAmountStep_amount_nonneg (tx : Transaction) (row : TxRow)
    (h : 0 ≤ tx.amount) : 0 ≤ (txAmountStep tx row).amount := by
  simp only [txAmountStep]
  split
  · exact parsePrice_nonneg _
  · exact h

theorem txRowStep_amount_nonneg (tx : Transaction) (row : TxRow)
    (h : 0 ≤ tx.amount) : 0 ≤ (txRowStep tx row).amount := by
  simp only [txRowStep, txMerchantStep_amount, foldl_txLinkStep_amount]
  exact txAmountStep_amount_nonneg _ _ (by rw [txPmStep_amount]; exact h)

theorem foldl_txRowStep_amount_nonneg (rows : List TxRow) (tx : Transaction)
    (h : 0 ≤ tx.amount) : 0 ≤ (rows.foldl txRowStep tx).amount := by
  induction rows generalizing tx with
  | nil => exact h
  | cons a as ih => exact ih _ (txRowStep_amount_nonneg _ _ h)

theorem txLineItemRun_amount_nonneg (status : String) (date : GoTime)
    (li : TxLineItem) : 0 ≤ (txLineItemRun status date li).amount := by
  simp only [txLineItemRun]
  apply foldl_txRowStep_amount_nonneg
  rw [foldl_txDateStep_amount]

theorem altSectionRun_amount_nonneg (st : List Transaction × GoTime × String)
    (sec : AltSection) (h : ∀ tx ∈ st.1, 0 ≤ tx.amount) :
    ∀ tx ∈ (altSectionRun st sec).1, 0 ≤ tx.amount := by
  intro tx htx
  simp only [altSectionRun, List.mem_append] at htx
  rcases htx with htx | htx
  · exact h tx htx
  · rw [List.mem_filterMap] at htx
    obtain ⟨b, _, hb⟩ := htx
    split at hb
    · split at hb <;> split at hb
      · next hpos =>
        rw [Option.some.injEq] at hb
        subst hb
        exact le_of_lt hpos
      · exact absurd hb (by simp)
      · next hpos =>
        rw [Option.some.injEq] at hb
        subst hb
        exact le_of_lt hpos
      · exact absurd hb (by simp)
    · exact absurd hb (by simp)

theorem parseTransactionsAlternative_amount_nonneg (doc : TxDoc) :
    ∀ tx ∈ parseTransactionsAlternative doc, 0 ≤ tx.amount := by
  simp only [parseTransactionsAlternative]
  generalize hst : (([], GoTime.zero, "") : List Transaction × GoTime × String) = st
  have hbase : ∀ tx ∈ st.1, 0 ≤ tx.amount := by
    intro tx htx
    rw [← hst] at htx
    simp at htx
  clear hst
  induction doc.altSections generalizing st with
  | nil => exact hbase
  | cons a as ih =>
    rw [List.foldl_cons]
    exact ih _ (altSectionRun_amount_nonneg st a hbase)

/-- C6: every transaction produced by `ParseTransactions` — by the primary
pass or by the fallback pass — carries a non-negative amount: the amount is
parsed from the text after stripping a leading negative sign, and the number
parser only produces magnitudes. -/
theorem C6_amountNonneg (doc : TxDoc) :
    ((ParseTransactions doc).all fun tx => decide (0 ≤ tx.amount)) = true := by
  rw [List.all_eq_true]
  intro tx htx
  simp only [decide_eq_true_eq]
  simp only [ParseTransactions] at htx
  split at htx
  · exact parseTransactionsAlternative_amount_nonneg doc tx htx
  · rw [List.mem_filterMap] at htx
    obtain ⟨li, _, hli⟩ := htx
    split at hli
    · rw [Option.some.injEq] at hli
      subst hli
      exact txLineItemRun_amount_nonneg _ _ _
    · exact absurd hli (by simp)

/-! ## Claim C1: cards without a resolvable identifier -/

/-- C1 (evaluation at the failing input): on a list page with three order
cards, two with resolvable identifiers and one with none, `ParseOrderList`
returns three summaries — the identifier-less card is NOT dropped; it
contributes a summary with an empty identifier.  The skip branch of
`ParseOrderList` is dead code because `parseOrderCard` never returns an
error, contradicting the documented drop behaviour. -/
theorem C1_idlessCardKept :
    (ParseOrderList [cardWithId1, cardWithId2, cardNoId]).map (fun s => s.id) =
        ["111-1111111-1111111", "222-2222222-2222222", ""] ∧
      (ParseOrderList [cardWithId1, cardWithId2, cardNoId]).length = 3 :=
  ⟨by decide, by decide⟩

/-! ## Claim C4: quantity/price invariant of parsed order items -/

theorem buildItems_quantity_zero (entries : List (String × String)) :
    ∀ (hrefs seen : List String), ∀ x ∈ buildItems entries hrefs seen,
      x.quantity = 0 := by
  intro hrefs
  induction hrefs with
  | nil => intro seen x hx; simp [buildItems] at hx
  | cons href rest ih =>
    intro seen x hx
    rw [buildItems] at hx
    split at hx
    · exact ih seen x hx
    · rcases List.mem_cons.mp hx with h | h
      · subst h; rfl
      · exact ih _ x h

theorem zipApply_nil_right (f : OrderItem → ℚ → OrderItem)
    (items : List OrderItem) : zipApply f items [] = items := by
  cases items <;> rfl

theorem zipApply_cons_cons (f : OrderItem → ℚ → OrderItem) (a : OrderItem)
    (rest : List OrderItem) (v : ℚ) (vs : List ℚ) :
    zipApply f (a :: rest) (v :: vs) = f a v :: zipApply f rest vs := rfl

theorem zipApply_length (f : OrderItem → ℚ → OrderItem) :
    ∀ (items : List OrderItem) (vs : List ℚ),
      (zipApply f items vs).length = items.length
  | [], vs => by cases vs <;> rfl
  | _ :: _, [] => rfl
  | a :: rest, v :: vs => by
    rw [zipApply_cons_cons, List.length_cons, List.length_cons,
      zipApply_length f rest vs]

theorem getD_congr_lt (l : List α) (i : Nat) (d₁ d₂ : α) (h : i < l.length) :
    l.getD i d₁ = l.getD i d₂ := by
  induction l generalizing i with
  | nil => simp at h
  | cons a rest ih =>
    cases i with
    | zero => rfl
    | succ i' => exact ih i' (by simpa using h)

theorem getD_map_all (f : α → β) (l : List α) (i : Nat) (d : α) :
    (l.map f).getD i (f d) = f (l.getD i d) := by
  induction l generalizing i with
  | nil => rfl
  | cons a rest ih =>
    cases i with
    | zero => rfl
    | succ i' => simpa using ih i'

theorem pipelineSpec (items : List OrderItem) (prices qtys : List ℚ) (i : Nat)
    (hz : ∀ x ∈ items, x.quantity = 0)
    (hq : ∀ q ∈ qtys, 1 ≤ q)
    (hi : i < items.length) :
    ((applyDefaults (applyQuantities qtys (applyUnitPrices prices items))).getD
        i emptyItem).quantity = (if i < qtys.length then qtys.getD i 0 else 1) ∧
    ((applyDefaults (applyQuantities qtys (applyUnitPrices prices items))).getD
        i emptyItem).price =
      ((applyDefaults (applyQuantities qtys (applyUnitPrices prices items))).getD
          i emptyItem).unitPrice *
        ((applyDefaults (applyQuantities qtys (applyUnitPrices prices items))).getD
            i emptyItem).quantity := by
  induction items generalizing prices qtys i with
  | nil => simp at hi
  | cons a rest ih =>
    have ha : a.quantity = 0 := hz a (List.mem_cons_self a rest)
    have hz' : ∀ x ∈ rest, x.quantity = 0 := fun x hx =>
      hz x (List.mem_cons_of_mem a hx)
    match i, prices, qtys with
    | 0, [], [] =>
      simp [applyUnitPrices, applyQuantities, applyDefaults, zipApply, ha]
    | 0, [], q :: qs =>
      have hq1 : 1 ≤ q := hq q (List.mem_cons_self q qs)
      have hqpos : 0 < q := lt_of_lt_of_le one_pos hq1
      have hqne : ¬ q = 0 := ne_of_gt hqpos
      simp [applyUnitPrices, applyQuantities, applyDefaults, zipApply, ha,
        hqpos, hqne]
    | 0, p :: ps, [] =>
      simp [applyUnitPrices, applyQuantities, applyDefaults, zipApply, ha]
    | 0, p :: ps, q :: qs =>
      have hq1 : 1 ≤ q := hq q (List.mem_cons_self q qs)
      have hqpos : 0 < q := lt_of_lt_of_le one_pos hq1
      have hqne : ¬ q = 0 := ne_of_gt hqpos
      simp [applyUnitPrices, applyQuantities, applyDefaults, zipApply, ha,
        hqpos, hqne]
    | Nat.succ i', [], [] =>
      have hi' : i' < rest.length := by simpa using hi
      have hrec := ih ([] : List ℚ) ([] : List ℚ) i' hz' (by simp) hi'
      simp only [applyUnitPrices, applyQuantities, applyDefaults] at hrec ⊢
      rw [zipApply_nil_right, zipApply_nil_right, List.map_cons,
        List.getD_cons_succ]
      rw [zipApply_nil_right, zipApply_nil_right] at hrec
      exact hrec
    | Nat.succ i', [], q :: qs =>
      have hq' : ∀ r ∈ qs, 1 ≤ r := fun r hr => hq r (List.mem_cons_of_mem q hr)
      have hi' : i' < rest.length := by simpa using hi
      have hrec := ih ([] : List ℚ) qs i' hz' hq' hi'
      simp only [applyUnitPrices, applyQuantities, applyDefaults] at hrec ⊢
      rw [zipApply_nil_right, zipApply_cons_cons, List.map_cons,
        List.getD_cons_succ, List.getD_cons_succ]
      rw [zipApply_nil_right] at hrec
      simpa only [List.length_cons, Nat.succ_lt_succ_iff] using hrec
    | Nat.succ i', p :: ps, [] =>
      have hi' : i' < rest.length := by simpa using hi
      have hrec := ih ps ([] : List ℚ) i' hz' (by simp) hi'
      simp only [applyUnitPrices, applyQuantities, applyDefaults] at hrec ⊢
      rw [zipApply_cons_cons, zipApply_nil_right, List.map_cons,
        List.getD_cons_succ]
      rw [zipApply_nil_right] at hrec
      exact hrec
    | Nat.succ i', p :: ps, q :: qs =>
      have hq' : ∀ r ∈ qs, 1 ≤ r := fun r hr => hq r (List.mem_cons_of_mem q hr)
      have hi' : i' < rest.length := by simpa using hi
      have hrec := ih ps qs i' hz' hq' hi'
      simp only [applyUnitPrices, applyQuantities, applyDefaults] at hrec ⊢
      rw [zipApply_cons_cons, zipApply_cons_cons, List.map_cons,
        List.getD_cons_succ, List.getD_cons_succ]
      simpa only [List.length_cons, Nat.succ_lt_succ_iff] using hrec

/-- C4: for every parsed order detail and every item index, the item's
quantity equals the positionally parsed quantity when a quantity block exists
for it and 1 otherwise, and its line price is always the unit price times the
quantity (so an item without a parsed quantity has price equal to its unit
price, and an item with parsed quantity q has price equal to unit price
times q). -/
theorem C4_itemInvariant (doc : DetailDoc) (i : Nat)
    (h : i < (parseShipmentItems doc).length) :
    ((parseShipmentItems doc).getD i emptyItem).quantity =
        (if i < doc.quantityDivs.length then
          parseQuantity (trimStr (doc.quantityDivs.getD i "")) else 1) ∧
      ((parseShipmentItems doc).getD i emptyItem).price =
        ((parseShipmentItems doc).getD i emptyItem).unitPrice *
          ((parseShipmentItems doc).getD i emptyItem).quantity := by
  have hz := buildItems_quantity_zero (asinNameEntries doc.dpLinks)
    doc.shipmentDpLinks []
  have hq : ∀ q ∈ doc.quantityDivs.map fun t => parseQuantity (trimStr t),
      1 ≤ q := by
    intro q hmem
    rw [List.mem_map] at hmem
    obtain ⟨t, _, rfl⟩ := hmem
    exact parseQuantity_ge_one _
  have hi : i < (buildItems (asinNameEntries doc.dpLinks)
      doc.shipmentDpLinks []).length := by
    have : (parseShipmentItems doc).length =
        (buildItems (asinNameEntries doc.dpLinks) doc.shipmentDpLinks []).length := by
      simp only [parseShipmentItems, applyDefaults, applyQuantities,
        applyUnitPrices, List.length_map, zipApply_length]
    rw [this] at h
    exact h
  have main := pipelineSpec _ (doc.priceDivs.map fun pd => parsePrice pd.text)
    (doc.quantityDivs.map fun t => parseQuantity (trimStr t)) i hz hq hi
  simp only [parseShipmentItems]
  refine ⟨?_, main.2⟩
  rw [main.1]
  by_cases hlt : i < doc.quantityDivs.length
  · simp only [List.length_map, hlt, if_true]
    rw [getD_congr_lt _ _ _ (parseQuantity (trimStr "")) (by simpa using hlt),
      getD_map_all]
  · simp [List.length_map, hlt]

/-- Witness for C4 at a one-item detail page with one price block and one
quantity block reading `Qty: 2`. -/
theorem C4_itemInvariant_witness :
    0 < (parseShipmentItems detailDocOne).length ∧
      (((parseShipmentItems detailDocOne).getD 0 emptyItem).quantity =
          (if 0 < detailDocOne.quantityDivs.length then
            parseQuantity (trimStr (detailDocOne.quantityDivs.getD 0 "")) else 1) ∧
        ((parseShipmentItems detailDocOne).getD 0 emptyItem).price =
          ((parseShipmentItems detailDocOne).getD 0 emptyItem).unitPrice *
            ((parseShipmentItems detailDocOne).getD 0 emptyItem).quantity) :=
  ⟨by decide, C4_itemInvariant detailDocOne 0 (by decide)⟩

/-! ## Claim C8: parseQuantity forms -/

theorem C8_counterexample : parseQuantity "0" = 1 ∧ (1 : ℚ) ≠ 0 :=
  ⟨by decide, by norm_num⟩

theorem digitCharOf_isDigit (n : Fin 10) : (digitCharOf n).isDigit = true := by
  fin_cases n <;> decide

theorem digitCharOf_not_goSpace (n : Fin 10) : goSpace (digitCharOf n) = false := by
  fin_cases n <;> decide

theorem digitCharOf_lower (n : Fin 10) : lowerChar (digitCharOf n) = digitCharOf n := by
  fin_cases n <;> decide

theorem digitCharOf_ne_q (n : Fin 10) : (digitCharOf n == 'q') = false := by
  fin_cases n <;> decide

theorem digitCharOf_ne_x (n : Fin 10) : (digitCharOf n == 'x') = false := by
  fin_cases n <;> decide

theorem digitCharOf_not_qtySep (n : Fin 10) :
    ((digitCharOf n == ':') || reSpace (digitCharOf n)) = false := by
  fin_cases n <;> decide

theorem dropWhile_eq_self_of_head (p : Char → Bool) (l : List Char)
    (h : ∀ c ∈ l.take 1, p c = false) : l.dropWhile p = l := by
  cases l with
  | nil => rfl
  | cons a t =>
    rw [List.dropWhile_cons, if_neg]
    simp only [List.take_succ_cons, List.take_zero, List.mem_singleton] at h
    simp [h a rfl]

theorem trimL_eq_self (l : List Char)
    (h₁ : ∀ c ∈ l.take 1, goSpace c = false)
    (h₂ : ∀ c ∈ l.reverse.take 1, goSpace c = false) : trimL l = l := by
  unfold trimL trimLeftL
  rw [dropWhile_eq_self_of_head _ _ h₁, dropWhile_eq_self_of_head _ _ h₂,
    List.reverse_reverse]

theorem lowerL_eq_self (l : List Char) (h : ∀ c ∈ l, lowerChar c = c) :
    lowerL l = l := by
  unfold lowerL
  induction l with
  | nil => rfl
  | cons a t ih =>
    rw [List.map_cons, h a (List.mem_cons_self a t),
      ih fun c hc => h c (List.mem_cons_of_mem a hc)]

theorem takeWhile_eq_self_of_all (p : Char → Bool) (l : List Char)
    (h : ∀ c ∈ l, p c = true) : l.takeWhile p = l := by
  induction l with
  | nil => rfl
  | cons a t ih =>
    rw [List.takeWhile_cons, if_pos (h a (List.mem_cons_self a t)),
      ih fun c hc => h c (List.mem_cons_of_mem a hc)]

theorem dropWhile_eq_nil_of_all (p : Char → Bool) (l : List Char)
    (h : ∀ c ∈ l, p c = true) : l.dropWhile p = [] := by
  induction l with
  | nil => rfl
  | cons a t ih =>
    rw [List.dropWhile_cons, if_pos (h a (List.mem_cons_self a t)),
      ih fun c hc => h c (List.mem_cons_of_mem a hc)]

theorem scanFirst_qty_none (l : List Char) (h : ∀ c ∈ l, (c == 'q') = false) :
    scanFirst qtyPatAt l = none := by
  induction l with
  | nil => rfl
  | cons a t ih =>
    rw [scanFirst]
    have ha : qtyPatAt (a :: t) = none := by
      unfold qtyPatAt
      rw [if_neg]
      show ¬ startsWithL (a :: t) ('q' :: 't' :: 'y' :: []) = true
      unfold startsWithL
      simp [h a (List.mem_cons_self a t)]
    rw [ha]
    exact ih fun c hc => h c (List.mem_cons_of_mem a hc)

theorem allDigits_map (ns : List (Fin 10)) :
    ∀ c ∈ ns.map digitCharOf, c.isDigit = true := by
  intro c hc
  rw [List.mem_map] at hc
  obtain ⟨n, _, rfl⟩ := hc
  exact digitCharOf_isDigit n

theorem scanFirst_xNum_digits (ns : List (Fin 10)) :
    scanFirst xNumPatAt (ns.map digitCharOf) = none := by
  induction ns with
  | nil => rfl
  | cons n t ih =>
    rw [List.map_cons, scanFirst]
    have hx : xNumPatAt (digitCharOf n :: t.map digitCharOf) = none := by
      unfold xNumPatAt
      simp [digitCharOf_ne_x n]
    rw [hx]
    exact ih

theorem scanFirst_xNum_digits_x (ns : List (Fin 10)) :
    scanFirst xNumPatAt (ns.map digitCharOf ++ ['x']) = none := by
  induction ns with
  | nil => decide
  | cons n t ih =>
    rw [List.map_cons, List.cons_append, scanFirst]
    have hx : xNumPatAt (digitCharOf n :: (t.map digitCharOf ++ ['x'])) = none := by
      unfold xNumPatAt
      simp [digitCharOf_ne_x n]
    rw [hx]
    exact ih

theorem numXPatAt_digits_none (ns : List (Fin 10)) :
    numXPatAt (ns.map digitCharOf) = none := by
  cases ns with
  | nil => rfl
  | cons n t =>
    unfold numXPatAt
    rw [takeWhile_eq_self_of_all _ _ (allDigits_map (n :: t)),
      dropWhile_eq_nil_of_all _ _ (allDigits_map (n :: t))]
    simp

theorem scanFirst_numX_digits (ns : List (Fin 10)) :
    scanFirst numXPatAt (ns.map digitCharOf) = none := by
  induction ns with
  | nil => rfl
  | cons n t ih =>
    rw [List.map_cons, scanFirst]
    have := numXPatAt_digits_none (n :: t)
    rw [List.map_cons] at this
    rw [this]
    exact ih

theorem take_one_append_subset {l₁ l₂ : List Char} (h : l₁ ≠ []) :
    ∀ c ∈ (l₁ ++ l₂).take 1, c ∈ l₁ := by
  cases l₁ with
  | nil => exact absurd rfl h
  | cons a t =>
    intro c hc
    simp only [List.cons_append, List.take_succ_cons, List.take_zero,
      List.mem_singleton] at hc
    rw [hc]
    exact List.mem_cons_self _ _

theorem digits_reverse_take_not_space (ns : List (Fin 10)) (pre : List Char)
    (h : ns ≠ []) :
    ∀ c ∈ (pre ++ ns.map digitCharOf).reverse.take 1, goSpace c = false := by
  intro c hc
  rw [List.reverse_append] at hc
  have hne : (ns.map digitCharOf).reverse ≠ [] := by
    simp only [ne_eq, List.reverse_eq_nil_iff, List.map_eq_nil_iff]
    exact h
  have hmem := take_one_append_subset hne c hc
  rw [List.mem_reverse, List.mem_map] at hmem
  obtain ⟨n, _, rfl⟩ := hmem
  exact digitCharOf_not_goSpace n

theorem parseQuantity_eq_of_pat1 (s : String) (v : Nat) (hv : 0 < v)
    (h : scanFirst qtyPatAt (lowerL (trimL s.toList)) = some v) :
    parseQuantity s = v := by
  simp only [parseQuantity, h, List.findSome?_cons, hv, if_true]

theorem parseQuantity_eq_of_pat2 (s : String) (v : Nat) (hv : 0 < v)
    (h₁ : scanFirst qtyPatAt (lowerL (trimL s.toList)) = none)
    (h : scanFirst xNumPatAt (lowerL (trimL s.toList)) = some v) :
    parseQuantity s = v := by
  simp only [parseQuantity, h₁, h, List.findSome?_cons, hv, if_true]

theorem parseQuantity_eq_of_pat3 (s : String) (v : Nat) (hv : 0 < v)
    (h₁ : scanFirst qtyPatAt (lowerL (trimL s.toList)) = none)
    (h₂ : scanFirst xNumPatAt (lowerL (trimL s.toList)) = none)
    (h : scanFirst numXPatAt (lowerL (trimL s.toList)) = some v) :
    parseQuantity s = v := by
  simp only [parseQuantity, h₁, h₂, h, List.findSome?_cons, hv, if_true]

theorem parseQuantity_eq_of_pat4 (s : String) (v : Nat) (hv : 0 < v)
    (h₁ : scanFirst qtyPatAt (lowerL (trimL s.toList)) = none)
    (h₂ : scanFirst xNumPatAt (lowerL (trimL s.toList)) = none)
    (h₃ : scanFirst numXPatAt (lowerL (trimL s.toList)) = none)
    (h : bareNumPat (lowerL (trimL s.toList)) = some v) :
    parseQuantity s = v := by
  simp only [parseQuantity, h₁, h₂, h₃, h, List.findSome?_cons, hv, if_true]

theorem parseQuantity_eq_one_of_none (s : String)
    (h₁ : scanFirst qtyPatAt (lowerL (trimL s.toList)) = none)
    (h₂ : scanFirst xNumPatAt (lowerL (trimL s.toList)) = none)
    (h₃ : scanFirst numXPatAt (lowerL (trimL s.toList)) = none)
    (h₄ : bareNumPat (lowerL (trimL s.toList)) = none) :
    parseQuantity s = 1 := by
  simp only [parseQuantity, h₁, h₂, h₃, h₄, List.findSome?_cons, List.findSome?_nil]

theorem lower_trim_eq_self (l : List Char)
    (ht₁ : ∀ c ∈ l.take 1, goSpace c = false)
    (ht₂ : ∀ c ∈ l.reverse.take 1, goSpace c = false)
    (hl : ∀ c ∈ l, lowerChar c = c) :
    lowerL (trimL l) = l := by
  rw [trimL_eq_self _ ht₁ ht₂, lowerL_eq_self _ hl]

theorem scan_qty_form1 (ns : List (Fin 10)) (h : ns ≠ []) :
    scanFirst qtyPatAt ('q' :: 't' :: 'y' :: ':' :: ' ' :: ns.map digitCharOf) =
      some (digitsVal (ns.map digitCharOf)) := by
  rw [scanFirst]
  have hq : qtyPatAt ('q' :: 't' :: 'y' :: ':' :: ' ' :: ns.map digitCharOf) =
      some (digitsVal (ns.map digitCharOf)) := by
    have hdrop : (':' :: ' ' :: ns.map digitCharOf).dropWhile
        (fun c => c == ':' || reSpace c) = ns.map digitCharOf := by
      rw [List.dropWhile_cons, if_pos (by decide), List.dropWhile_cons,
        if_pos (by decide)]
      apply dropWhile_eq_self_of_head
      intro c hc
      have hmem := List.take_subset 1 _ hc
      rw [List.mem_map] at hmem
      obtain ⟨n, _, rfl⟩ := hmem
      exact digitCharOf_not_qtySep n
    have hstart : startsWithL
        ('q' :: 't' :: 'y' :: ':' :: ' ' :: ns.map digitCharOf)
        "qty".toList = true := rfl
    unfold qtyPatAt
    rw [if_pos hstart]
    have hd3 : ('q' :: 't' :: 'y' :: ':' :: ' ' :: ns.map digitCharOf).drop 3 =
        ':' :: ' ' :: ns.map digitCharOf := rfl
    simp only [hd3, hdrop,
      takeWhile_eq_self_of_all _ _ (allDigits_map ns)]
    rw [if_neg]
    rw [List.isEmpty_iff, List.map_eq_nil_iff]
    exact h
  rw [hq]

theorem scan_x_form2 (ns : List (Fin 10)) (h : ns ≠ []) :
    scanFirst xNumPatAt ('x' :: ns.map digitCharOf) =
      some (digitsVal (ns.map digitCharOf)) := by
  rw [scanFirst]
  have hx : xNumPatAt ('x' :: ns.map digitCharOf) =
      some (digitsVal (ns.map digitCharOf)) := by
    rw [xNumPatAt]
    rw [if_pos (show (('x' : Char) == 'x') = true from rfl)]
    simp only [takeWhile_eq_self_of_all _ _ (allDigits_map ns)]
    rw [if_neg]
    rw [List.isEmpty_iff, List.map_eq_nil_iff]
    exact h
  rw [hx]

theorem takeWhile_digits_append_x (ns : List (Fin 10)) :
    (ns.map digitCharOf ++ ['x']).takeWhile Char.isDigit = ns.map digitCharOf := by
  induction ns with
  | nil => decide
  | cons n t ih =>
    rw [List.map_cons, List.cons_append, List.takeWhile_cons,
      if_pos (digitCharOf_isDigit n), ih]

theorem dropWhile_digits_append_x (ns : List (Fin 10)) :
    (ns.map digitCharOf ++ ['x']).dropWhile Char.isDigit = ['x'] := by
  induction ns with
  | nil => decide
  | cons n t ih =>
    rw [List.map_cons, List.cons_append, List.dropWhile_cons,
      if_pos (digitCharOf_isDigit n), ih]

theorem scan_numX_form3 (ns : List (Fin 10)) (h : ns ≠ []) :
    scanFirst numXPatAt (ns.map digitCharOf ++ ['x']) =
      some (digitsVal (ns.map digitCharOf)) := by
  have hnum : numXPatAt (ns.map digitCharOf ++ ['x']) =
      some (digitsVal (ns.map digitCharOf)) := by
    unfold numXPatAt
    simp only [takeWhile_digits_append_x, dropWhile_digits_append_x]
    rw [if_neg]
    rw [List.isEmpty_iff, List.map_eq_nil_iff]
    exact h
  cases ns with
  | nil => exact absurd rfl h
  | cons n t =>
    rw [List.map_cons, List.cons_append, scanFirst]
    rw [List.map_cons, List.cons_append] at hnum
    rw [hnum]

theorem bare_form4 (ns : List (Fin 10)) (h : ns ≠ []) :
    bareNumPat (ns.map digitCharOf) = some (digitsVal (ns.map digitCharOf)) := by
  unfold bareNumPat
  rw [if_neg, if_pos]
  · rw [List.all_eq_true]
    exact allDigits_map ns
  · rw [List.isEmpty_iff, List.map_eq_nil_iff]
    exact h

/-- C8 (amended): `parseQuantity` returns the numeric value N for inputs of
the exact shapes `qty: N`, `xN`, `Nx` and a bare integer N whenever N ≥ 1;
the empty string yields 1, an input in which none of the four patterns
occurs anywhere yields 1, and a form with N = 0 also yields 1 (the positive
gate rejects the capture). -/
theorem C8_amended_parseQuantity (ns : List (Fin 10)) (s : String)
    (hne : ns ≠ [])
    (hv : 1 ≤ digitsVal (ns.map digitCharOf))
    (h₁ : scanFirst qtyPatAt (lowerL (trimL s.toList)) = none)
    (h₂ : scanFirst xNumPatAt (lowerL (trimL s.toList)) = none)
    (h₃ : scanFirst numXPatAt (lowerL (trimL s.toList)) = none)
    (h₄ : bareNumPat (lowerL (trimL s.toList)) = none) :
    parseQuantity (String.mk ('q' :: 't' :: 'y' :: ':' :: ' ' :: ns.map digitCharOf)) =
        (digitsVal (ns.map digitCharOf) : ℚ) ∧
      parseQuantity (String.mk ('x' :: ns.map digitCharOf)) =
        (digitsVal (ns.map digitCharOf) : ℚ) ∧
      parseQuantity (String.mk (ns.map digitCharOf ++ ['x'])) =
        (digitsVal (ns.map digitCharOf) : ℚ) ∧
      parseQuantity (String.mk (ns.map digitCharOf)) =
        (digitsVal (ns.map digitCharOf) : ℚ) ∧
      parseQuantity "" = 1 ∧
      parseQuantity s = 1 := by
  have hds_ne : ns.map digitCharOf ≠ [] := by
    simp only [ne_eq, List.map_eq_nil_iff]
    exact hne
  have hvpos : 0 < digitsVal (ns.map digitCharOf) := hv
  have hlow_ds : ∀ c ∈ ns.map digitCharOf, lowerChar c = c := by
    intro c hc
    rw [List.mem_map] at hc
    obtain ⟨n, _, rfl⟩ := hc
    exact digitCharOf_lower n
  have hq_ds : ∀ c ∈ ns.map digitCharOf, (c == 'q') = false := by
    intro c hc
    rw [List.mem_map] at hc
    obtain ⟨n, _, rfl⟩ := hc
    exact digitCharOf_ne_q n
  have hspace_ds : ∀ c ∈ ns.map digitCharOf, goSpace c = false := by
    intro c hc
    rw [List.mem_map] at hc
    obtain ⟨n, _, rfl⟩ := hc
    exact digitCharOf_not_goSpace n
  have norm₁ : lowerL (trimL ('q' :: 't' :: 'y' :: ':' :: ' ' :: ns.map digitCharOf)) =
      'q' :: 't' :: 'y' :: ':' :: ' ' :: ns.map digitCharOf := by
    apply lower_trim_eq_self
    · intro c hc
      simp only [List.take_succ_cons, List.take_zero, List.mem_singleton] at hc
      subst hc
      decide
    · exact digits_reverse_take_not_space ns ['q', 't', 'y', ':', ' '] hne
    · intro c hc
      simp only [List.mem_cons] at hc
      rcases hc with rfl | rfl | rfl | rfl | rfl | hc
      · decide
      · decide
      · decide
      · decide
      · decide
      · exact hlow_ds c hc
  have norm₂ : lowerL (trimL ('x' :: ns.map digitCharOf)) =
      'x' :: ns.map digitCharOf := by
    apply lower_trim_eq_self
    · intro c hc
      simp only [List.take_succ_cons, List.take_zero, List.mem_singleton] at hc
      subst hc
      decide
    · exact digits_reverse_take_not_space ns ['x'] hne
    · intro c hc
      simp only [List.mem_cons] at hc
      rcases hc with rfl | hc
      · decide
      · exact hlow_ds c hc
  have norm₃ : lowerL (trimL (ns.map digitCharOf ++ ['x'])) =
      ns.map digitCharOf ++ ['x'] := by
    apply lower_trim_eq_self
    · intro c hc
      exact hspace_ds c (take_one_append_subset hds_ne c hc)
    · intro c hc
      rw [List.reverse_append] at hc
      simp only [List.reverse_cons, List.reverse_nil, List.nil_append,
        List.singleton_append, List.cons_append, List.take_succ_cons,
        List.take_zero, List.mem_singleton] at hc
      subst hc
      decide
    · intro c hc
      rw [List.mem_append] at hc
      rcases hc with hc | hc
      · exact hlow_ds c hc
      · rw [List.mem_singleton] at hc
        subst hc
        decide
  have norm₄ : lowerL (trimL (ns.map digitCharOf)) = ns.map digitCharOf := by
    apply lower_trim_eq_self
    · intro c hc
      exact hspace_ds c (List.take_subset 1 _ hc)
    · intro c hc
      have := List.take_subset 1 _ hc
      rw [List.mem_reverse] at this
      exact hspace_ds c this
    · exact hlow_ds
  refine ⟨?_, ?_, ?_, ?_, by decide, ?_⟩
  · rw [parseQuantity_eq_of_pat1 _ _ hvpos ?_]
    show scanFirst qtyPatAt
        (lowerL (trimL ('q' :: 't' :: 'y' :: ':' :: ' ' :: ns.map digitCharOf))) = _
    rw [norm₁]
    exact scan_qty_form1 ns hne
  · rw [parseQuantity_eq_of_pat2 _ _ hvpos ?_ ?_]
    · show scanFirst qtyPatAt (lowerL (trimL ('x' :: ns.map digitCharOf))) = none
      rw [norm₂]
      apply scanFirst_qty_none
      intro c hc
      simp only [List.mem_cons] at hc
      rcases hc with rfl | hc
      · decide
      · exact hq_ds c hc
    · show scanFirst xNumPatAt (lowerL (trimL ('x' :: ns.map digitCharOf))) = _
      rw [norm₂]
      exact scan_x_form2 ns hne
  · rw [parseQuantity_eq_of_pat3 _ _ hvpos ?_ ?_ ?_]
    · show scanFirst qtyPatAt (lowerL (trimL (ns.map digitCharOf ++ ['x']))) = none
      rw [norm₃]
      apply scanFirst_qty_none
      intro c hc
      rw [List.mem_append] at hc
      rcases hc with hc | hc
      · exact hq_ds c hc
      · rw [List.mem_singleton] at hc
        subst hc
        decide
    · show scanFirst xNumPatAt (lowerL (trimL (ns.map digitCharOf ++ ['x']))) = none
      rw [norm₃]
      exact scanFirst_xNum_digits_x ns
    · show scanFirst numXPatAt (lowerL (trimL (ns.map digitCharOf ++ ['x']))) = _
      rw [norm₃]
      exact scan_numX_form3 ns hne
  · rw [parseQuantity_eq_of_pat4 _ _ hvpos ?_ ?_ ?_ ?_]
    · show scanFirst qtyPatAt (lowerL (trimL (ns.map digitCharOf))) = none
      rw [norm₄]
      exact scanFirst_qty_none _ hq_ds
    · show scanFirst xNumPatAt (lowerL (trimL (ns.map digitCharOf))) = none
      rw [norm₄]
      exact scanFirst_xNum_digits ns
    · show scanFirst numXPatAt (lowerL (trimL (ns.map digitCharOf))) = none
      rw [norm₄]
      exact scanFirst_numX_digits ns
    · show bareNumPat (lowerL (trimL (ns.map digitCharOf))) = _
      rw [norm₄]
      exact bare_form4 ns hne
  · exact parseQuantity_eq_one_of_none s h₁ h₂ h₃ h₄

/-- Witness for the amended `parseQuantity` claim at the digit string `2` and
the pattern-free input `invalid`. -/
theorem C8_amended_parseQuantity_witness :
    ([(2 : Fin 10)] ≠ [] ∧ 1 ≤ digitsVal ([(2 : Fin 10)].map digitCharOf)) ∧
      (parseQuantity (String.mk ('q' :: 't' :: 'y' :: ':' :: ' ' ::
          [(2 : Fin 10)].map digitCharOf)) =
          (digitsVal ([(2 : Fin 10)].map digitCharOf) : ℚ) ∧
        parseQuantity (String.mk ('x' :: [(2 : Fin 10)].map digitCharOf)) =
          (digitsVal ([(2 : Fin 10)].map digitCharOf) : ℚ) ∧
        parseQuantity (String.mk ([(2 : Fin 10)].map digitCharOf ++ ['x'])) =
          (digitsVal ([(2 : Fin 10)].map digitCharOf) : ℚ) ∧
        parseQuantity (String.mk ([(2 : Fin 10)].map digitCharOf)) =
          (digitsVal ([(2 : Fin 10)].map digitCharOf) : ℚ) ∧
        parseQuantity "" = 1 ∧
        parseQuantity "invalid" = 1) :=
  ⟨⟨by decide, by decide⟩,
    C8_amended_parseQuantity [(2 : Fin 10)] "invalid" (by decide) (by decide)
      (by decide) (by decide) (by decide) (by decide)⟩

/-! ## Claim C5: per-year pagination -/

theorem fetchYearAux_offsets_ne_nil (maxOrders : Int) (pages : List PageResp) :
    ∀ (idx : Nat) (acc : List OrderSummary),
      (fetchYearOrdersAux maxOrders pages idx acc).2.1 ≠ [] := by
  induction pages with
  | nil => intro idx acc; simp [fetchYearOrdersAux]
  | cons head rest ih =>
    intro idx acc
    cases head with
    | none => simp [fetchYearOrdersAux]
    | some page =>
      simp only [fetchYearOrdersAux]
      split
      · simp
      · split
        · simp
        · split
          · simp
          · simp

theorem fetchYearAux_offsets (maxOrders : Int) (pages : List PageResp) :
    ∀ (idx : Nat) (acc : List OrderSummary),
      (fetchYearOrdersAux maxOrders pages idx acc).2.1 =
        (List.range ((fetchYearOrdersAux maxOrders pages idx acc).2.1.length)).map
          (fun k => idx + 10 * k) := by
  induction pages with
  | nil => intro idx acc; simp [fetchYearOrdersAux, show List.range 1 = [0] from rfl]
  | cons head rest ih =>
    intro idx acc
    cases head with
    | none => simp [fetchYearOrdersAux, show List.range 1 = [0] from rfl]
    | some page =>
      simp only [fetchYearOrdersAux]
      split
      · simp [show List.range 1 = [0] from rfl]
      · split
        · simp [show List.range 1 = [0] from rfl]
        · split
          · simp [show List.range 1 = [0] from rfl]
          · show idx :: (fetchYearOrdersAux maxOrders rest (idx + 10) (acc ++ page)).2.1 =
              List.map (fun k => idx + 10 * k)
                (List.range
                  (idx :: (fetchYearOrdersAux maxOrders rest (idx + 10) (acc ++ page)).2.1).length)
            rw [List.length_cons, List.range_succ_eq_map, List.map_cons,
              List.map_map]
            congr 1
            rw [ih (idx + 10) (acc ++ page), List.length_map, List.length_range]
            apply List.map_congr_left
            intro k _
            simp only [Function.comp_apply, Nat.succ_eq_add_one]
            ring

theorem accLen_succ_getD (full : List (List OrderSummary)) (j : Nat) :
    accLen full (j + 1) = accLen full j + (full.getD j []).length := by
  unfold accLen
  rw [List.take_succ, List.map_append, List.sum_append,
    List.getD_eq_getElem?_getD]
  cases h : full[j]? with
  | none => simp [h]
  | some p => simp [h]

theorem fetchYearAux_stopHit (maxOrders : Int) (full : List (List OrderSummary)) :
    ∀ (rest : List (List OrderSummary)) (j : Nat) (acc : List OrderSummary),
      full.drop j = rest → acc.length = accLen full j →
      stopCond full maxOrders
          (j + ((fetchYearOrdersAux maxOrders (rest.map some) (10 * j) acc).2.1.length - 1)) = true ∧
        ∀ i < (fetchYearOrdersAux maxOrders (rest.map some) (10 * j) acc).2.1.length - 1,
          stopCond full maxOrders (j + i) = false := by
  intro rest
  induction rest with
  | nil =>
    intro j acc hdrop hacc
    have hnone : full[j]? = none :=
      List.getElem?_eq_none (List.drop_eq_nil_iff.mp hdrop)
    constructor
    · show stopCond full maxOrders (j + (1 - 1)) = true
      simp [stopCond, List.getD_eq_getElem?_getD, hnone]
    · intro i hi
      simp [fetchYearOrdersAux] at hi
  | cons p rest' ih =>
    intro j acc hdrop hacc
    have hget : full[j]? = some p := by
      have h0 := List.getElem?_drop full j 0
      rw [hdrop] at h0
      simpa using h0.symm
    have hpage : full.getD j [] = p := by
      rw [List.getD_eq_getElem?_getD, hget]
      rfl
    have hdrop' : full.drop (j + 1) = rest' := by
      have h1 := List.drop_drop 1 j full
      rw [hdrop] at h1
      simpa using h1.symm
    have haccp : (acc ++ p).length = accLen full (j + 1) := by
      rw [List.length_append, hacc, accLen_succ_getD, hpage]
    rw [List.map_cons]
    simp only [fetchYearOrdersAux]
    split
    · next hp0 =>
      constructor
      · show stopCond full maxOrders (j + (1 - 1)) = true
        have hpnil : p = [] := List.length_eq_zero.mp hp0
        simp [stopCond, List.getD_eq_getElem?_getD, hget, hpnil]
      · intro i hi
        simp at hi
    · next hp0 =>
      split
      · next hmax =>
        constructor
        · show stopCond full maxOrders (j + (1 - 1)) = true
          have hle : maxOrders ≤ (accLen full (j + 1) : Int) := by
            rw [← haccp]
            exact_mod_cast hmax.2
          simp [stopCond, hmax.1, hle]
        · intro i hi
          simp at hi
      · next hmax =>
        split
        · next hshort =>
          constructor
          · show stopCond full maxOrders (j + (1 - 1)) = true
            simp [stopCond, List.getD_eq_getElem?_getD, hget, hshort]
          · intro i hi
            simp at hi
        · next hshort =>
          have h10 : 10 * j + 10 = 10 * (j + 1) := by ring
          rw [h10]
          have hrec := ih (j + 1) (acc ++ p) hdrop' haccp
          have hne := fetchYearAux_offsets_ne_nil maxOrders (rest'.map some)
            (10 * (j + 1)) (acc ++ p)
          have hpos : 0 <
              (fetchYearOrdersAux maxOrders (rest'.map some) (10 * (j + 1))
                (acc ++ p)).2.1.length := List.length_pos.mpr hne
          have hstop0 : stopCond full maxOrders j = false := by
            have hmid : (decide (0 < maxOrders) &&
                decide (maxOrders ≤ (accLen full (j + 1) : Int))) = false := by
              by_cases hm : 0 < maxOrders
              · have hnle : ¬ maxOrders ≤ ((acc ++ p).length : Int) := fun hc =>
                  hmax ⟨hm, hc⟩
                rw [haccp] at hnle
                simp [hnle]
              · simp [hm]
            simp only [stopCond, hpage, hmid]
            simp [hp0, hshort]
          set r := fetchYearOrdersAux maxOrders (rest'.map some) (10 * (j + 1))
            (acc ++ p) with hr
          constructor
          · show stopCond full maxOrders (j + ((10 * j :: r.2.1).length - 1)) = true
            rw [List.length_cons]
            have harith : j + (r.2.1.length + 1 - 1) = (j + 1) + (r.2.1.length - 1) := by
              omega
            rw [harith]
            exact hrec.1
          · intro i hi
            have hi' : i < r.2.1.length := by
              have : i < (10 * j :: r.2.1).length - 1 := hi
              simpa using this
            cases i with
            | zero => simpa using hstop0
            | succ i' =>
              have harith : j + (i' + 1) = (j + 1) + i' := by omega
              rw [harith]
              exact hrec.2 i' (by omega)

/-- C5: per-year pagination fetches pages at offsets 0, 10, 20, …; it stops
exactly at the first page satisfying the stop condition (zero summaries, or
accumulated total reaching a positive caller maximum, or a short page of
fewer than 10); in particular pages yielding 10, 10 and 4 summaries cause
exactly three fetches, at offsets 0, 10 and 20, with no fourth. -/
theorem C5_pagination (pages : List (List OrderSummary)) (maxOrders : Int) :
    (fetchYearOrders (pages.map some) maxOrders).2.1 =
        (List.range ((fetchYearOrders (pages.map some) maxOrders).2.1.length)).map
          (fun k => 10 * k) ∧
      1 ≤ (fetchYearOrders (pages.map some) maxOrders).2.1.length ∧
      stopCond pages maxOrders
        ((fetchYearOrders (pages.map some) maxOrders).2.1.length - 1) = true ∧
      ((List.range ((fetchYearOrders (pages.map some) maxOrders).2.1.length - 1)).all
        fun k => !stopCond pages maxOrders k) = true ∧
      (fetchYearOrders (pagesTenTenFour.map some) 0).2.1 = [0, 10, 20] := by
  have hstop := fetchYearAux_stopHit maxOrders pages pages 0 []
    (by simp) (by simp [accLen])
  refine ⟨?_, ?_, ?_, ?_, by decide⟩
  · have h := fetchYearAux_offsets maxOrders (pages.map some) 0 []
    rw [fetchYearOrders, h, List.length_map, List.length_range]
    apply List.map_congr_left
    intro k _
    simp
  · exact List.length_pos.mpr
      (fetchYearAux_offsets_ne_nil maxOrders (pages.map some) 0 [])
  · have h := hstop.1
    simpa using h
  · rw [List.all_eq_true]
    intro k hk
    rw [List.mem_range] at hk
    have h := hstop.2 k (by simpa using hk)
    simp only [Bool.not_eq_true']
    simpa using h

/-! ## Claim C3: cancellation and partial results -/

/-- C3 counterexample: with two year iterations, one summary fetched in the
first year and cancellation signalled at the checkpoint before the second
year, `fetchOrderSummaries` carries the partial summary out, but
`FetchOrders` returns the empty list with the cancellation error — the
already-fetched summary is discarded. -/
theorem C3_counterexample :
    (FetchOrders envTwoYears (some 1) optsTwoYears 2025).1 = [] ∧
      (FetchOrders envTwoYears (some 1) optsTwoYears 2025).2 = true ∧
      (fetchOrderSummaries envTwoYears (some 1) optsTwoYears 2025).1 =
        [summaryJune] :=
  ⟨by decide, by decide, by decide⟩

theorem fetchDetailsLoop_app (env : ClientEnv) (cancelFrom : Option Nat) :
    ∀ (summaries : List OrderSummary) (n : Nat) (acc : List Order),
      ∃ rest, (fetchDetailsLoop env cancelFrom summaries n acc).1 = acc ++ rest := by
  intro summaries
  induction summaries with
  | nil => intro n acc; exact ⟨[], by simp [fetchDetailsLoop]⟩
  | cons s rest' ih =>
    intro n acc
    simp only [fetchDetailsLoop]
    have step : ∀ x : Order,
        ∃ r, (fetchDetailsLoop env cancelFrom rest' (n + 1) (acc ++ [x])).1 =
          acc ++ (x :: r) := by
      intro x
      obtain ⟨r, hr⟩ := ih (n + 1) (acc ++ [x])
      exact ⟨r, by rw [hr, List.append_assoc]; rfl⟩
    split
    · exact ⟨[], by simp⟩
    · split
      · obtain ⟨r, hr⟩ := step (summaryOrder s)
        exact ⟨summaryOrder s :: r, hr⟩
      · next order heq =>
        obtain ⟨r, hr⟩ := step
          (if (if order.id = "" then { order with id := s.id } else order).date.isZero then
            { (if order.id = "" then { order with id := s.id } else order) with
                date := s.date }
          else (if order.id = "" then { order with id := s.id } else order))
        exact ⟨_ :: r, hr⟩

/-- C3 (amended): cancellation at a checkpoint between per-order detail
fetches returns the orders accumulated so far (the accumulated list is
always an initial segment of what the loop returns — nothing fetched is
discarded there); but cancellation at a checkpoint between year iterations
makes `FetchOrders` return the empty list with the cancellation error,
discarding the summaries that `fetchOrderSummaries` had accumulated and
returned alongside the error. -/
theorem C3_amended_cancellation (env : ClientEnv) (cancelFrom : Option Nat)
    (opts : FetchOptions) (currentYear : Int)
    (summaries : List OrderSummary) (n : Nat) (acc : List Order)
    (h : (fetchOrderSummaries env cancelFrom opts currentYear).2.2 = true) :
    FetchOrders env cancelFrom opts currentYear = ([], true) ∧
      ∃ rest, (fetchDetailsLoop env cancelFrom summaries n acc).1 = acc ++ rest := by
  constructor
  · simp only [FetchOrders, h, if_true]
  · exact fetchDetailsLoop_app env cancelFrom summaries n acc

/-- Witness for the amended cancellation claim at the two-year environment
with cancellation at the second checkpoint. -/
theorem C3_amended_cancellation_witness :
    (fetchOrderSummaries envTwoYears (some 1) optsTwoYears 2025).2.2 = true ∧
      (FetchOrders envTwoYears (some 1) optsTwoYears 2025 = ([], true) ∧
        ∃ rest, (fetchDetailsLoop envTwoYears (some 1) [summaryJune] 1 []).1 =
          [] ++ rest) :=
  ⟨by decide,
    C3_amended_cancellation envTwoYears (some 1) optsTwoYears 2025
      [summaryJune] 1 [] (by decide)⟩

/-! ## Claim C9: the MaxOrders bound -/

theorem fetchSummariesAux_length_le (env : ClientEnv) (cancelFrom : Option Nat)
    (opts : FetchOptions) (h : 0 < opts.maxOrders) :
    ∀ (years : List Int) (n : Nat) (acc : List OrderSummary),
      (fetchOrderSummariesAux env cancelFrom opts years n acc).1.length ≤
        max acc.length opts.maxOrders.toNat := by
  intro years
  induction years with
  | nil => intro n acc; simp [fetchOrderSummariesAux]
  | cons y ys ih =>
    intro n acc
    simp only [fetchOrderSummariesAux]
    split
    · exact le_max_left _ _
    · split
      · exact ih (n + 1) acc
      · split
        · next hmax =>
          refine le_trans ?_ (le_max_right _ _)
          simp [List.length_take]
        · next hmax =>
          have hlt : (acc ++ (fetchYearOrders (env.pagesOf y) opts.maxOrders).1.filter
              fun s => isWithinDateRange s.date opts).length < opts.maxOrders.toNat := by
            have hnot : ¬ (opts.maxOrders ≤ ((acc ++ (fetchYearOrders (env.pagesOf y)
                opts.maxOrders).1.filter fun s => isWithinDateRange s.date opts).length : Int)) :=
              fun hc => hmax ⟨h, hc⟩
            omega
          calc (fetchOrderSummariesAux env cancelFrom opts ys (n + 1) _).1.length
              ≤ max (acc ++ (fetchYearOrders (env.pagesOf y) opts.maxOrders).1.filter
                  fun s => isWithinDateRange s.date opts).length opts.maxOrders.toNat :=
                ih (n + 1) _
            _ ≤ opts.maxOrders.toNat := by omega
            _ ≤ max acc.length opts.maxOrders.toNat := le_max_right _ _

theorem fetchDetailsLoop_length (env : ClientEnv) (cancelFrom : Option Nat) :
    ∀ (summaries : List OrderSummary) (n : Nat) (acc : List Order),
      (fetchDetailsLoop env cancelFrom summaries n acc).1.length ≤
        acc.length + summaries.length := by
  intro summaries
  induction summaries with
  | nil => intro n acc; simp [fetchDetailsLoop]
  | cons s rest' ih =>
    intro n acc
    simp only [fetchDetailsLoop]
    split
    · simp
    · split
      · calc (fetchDetailsLoop env cancelFrom rest' (n + 1) _).1.length
            ≤ (acc ++ [summaryOrder s]).length + rest'.length := ih (n + 1) _
          _ ≤ acc.length + (s :: rest').length := by simp; omega
      · calc (fetchDetailsLoop env cancelFrom rest' (n + 1) _).1.length
            ≤ _ + rest'.length := ih (n + 1) _
          _ ≤ acc.length + (s :: rest').length := by simp; omega

/-- C9: for a positive caller maximum, the order list returned by
`FetchOrders` contains at most `MaxOrders` entries. -/
theorem C9_maxOrdersBound (env : ClientEnv) (cancelFrom : Option Nat)
    (opts : FetchOptions) (currentYear : Int) (h : 0 < opts.maxOrders) :
    (FetchOrders env cancelFrom opts currentYear).1.length ≤
      opts.maxOrders.toNat := by
  have hsum : (fetchOrderSummaries env cancelFrom opts currentYear).1.length ≤
      opts.maxOrders.toNat := by
    have := fetchSummariesAux_length_le env cancelFrom opts h
      (determineYears currentYear opts) 0 []
    simpa [fetchOrderSummaries] using this
  simp only [FetchOrders]
  split
  · simp
  · split
    · simpa using hsum
    · calc (fetchDetailsLoop env cancelFrom
            (fetchOrderSummaries env cancelFrom opts currentYear).1
            (fetchOrderSummaries env cancelFrom opts currentYear).2.1 []).1.length
          ≤ ([] : List Order).length +
            (fetchOrderSummaries env cancelFrom opts currentYear).1.length :=
            fetchDetailsLoop_length env cancelFrom _ _ []
        _ ≤ opts.maxOrders.toNat := by simpa using hsum

/-- Witness for the MaxOrders bound: a year yielding two summaries with a
maximum of one. -/
theorem C9_maxOrdersBound_witness :
    0 < optsMaxOne.maxOrders ∧
      (FetchOrders envTwoOrders none optsMaxOne 2025).1.length ≤
        optsMaxOne.maxOrders.toNat :=
  ⟨by decide, C9_maxOrdersBound envTwoOrders none optsMaxOne 2025 (by decide)⟩
